import Mathlib

/-!
Session capture core (`core/session.go`).

A shallow embedding of the `Session` record, its setters, the cookie-token
store, the completion evaluator `AllCookieAuthTokensCaptured` and the
completion latch `Finish`, followed by theorems about them.

Modelling conventions.

* A Go `map[string]V` is an association list with pairwise distinct keys
  (`GoMap V`).  Go leaves the iteration order of a map unspecified; the order
  of the entries of the association list stands for one such order, and a
  statement about every order quantifies over maps with the same contents.
  A map field always holds an allocated map: `NewSession` allocates every map
  and no function assigns nil to one.
* A pointer to a struct held in a map is modelled by the struct value stored
  in the map; updating through the pointer is an update of the map entry.
* A compiled regular expression is modelled by its `MatchString` function.
* `Finish` returns, next to the new session, the list of effects it performed
  (closing the channel, starting the notifier goroutine).
* The notifier functions return the list of their outputs (lines printed,
  warnings logged, goroutines started, HTTP posts made); the answer of the
  network is a parameter.
* Operations run one after another, except in the last part: there `Finish`
  is split into its statements, one step per access to the session, and a
  schedule says which goroutine makes the next step.
-/

namespace Core

/-- A Go map with string keys: an association list whose keys are pairwise
distinct. -/
abbrev GoMap (V : Type) : Type := AList (fun _ : String => V)

/-- A `time.Time`, as a count of time units; the zero value is `0`. -/
abbrev Time : Type := Int

/-- Modelled from the spec: `database.CookieToken`, whose declaration lives
outside `session.go`; the spec gives it the fields
`Name, Value, Path, HttpOnly (bool), Expires (timestamp)`. -/
structure CookieToken where
  Name : String
  Value : String
  Path : String
  HttpOnly : Bool
  Expires : Time
  deriving DecidableEq, Repr

/-- A compiled `*regexp.Regexp`, seen through the one method the session code
calls on it. -/
structure Regexp where
  MatchString : String → Bool

/-- Modelled from the spec: `CookieAuthToken`, whose declaration lives outside
`session.go`; the spec gives it the fields
`name, re (optional regex), optional (bool)`.  A nil `re` is `none`. -/
structure CookieAuthToken where
  name : String
  re : Option Regexp
  optional : Bool

/-- A `chan struct{}` as seen through the handle the session holds: all that
matters to `close` is whether the channel has been closed already. -/
structure Chan where
  closed : Bool
  deriving DecidableEq, Repr

/-- The `Session` struct (lines 15-39).  `Lure` is the type the field
`PhishLure` points to; it is declared outside `session.go` and no function
here looks inside it.  A nil pointer or nil channel is `none`. -/
structure Session (Lure : Type) where
  Id : String
  Name : String
  Username : String
  Password : String
  Custom : GoMap String
  Params : GoMap String
  BodyTokens : GoMap String
  HttpTokens : GoMap String
  CookieTokens : GoMap (GoMap CookieToken)
  RedirectURL : String
  IsDone : Bool
  IsAuthUrl : Bool
  IsForwarded : Bool
  ProgressIndex : Int
  RedirectCount : Int
  PhishLure : Option Lure
  RedirectorName : String
  LureDirPath : String
  DoneSignal : Option Chan
  RemoteAddr : String
  UserAgent : String
  TelegramBotToken : String
  TelegramUserID : String

variable {Lure : Type}

/-- The constructor `NewSession` (lines 41-69).  `genRandomToken` is the value returned by the
call `GenRandomToken()`, a function declared outside `session.go`.  The Go
function returns the session together with a nil error. -/
def NewSession (genRandomToken : String) (name : String) : Session Lure :=
  { Id := genRandomToken
    Name := name
    Username := ""
    Password := ""
    Custom := ∅
    Params := ∅
    BodyTokens := ∅
    HttpTokens := ∅
    CookieTokens := ∅
    RedirectURL := ""
    IsDone := false
    IsAuthUrl := false
    IsForwarded := false
    ProgressIndex := 0
    RedirectCount := 0
    PhishLure := none
    RedirectorName := ""
    LureDirPath := ""
    DoneSignal := some { closed := false }
    RemoteAddr := ""
    UserAgent := ""
    TelegramBotToken := ""
    TelegramUserID := "" }

/-- The setter `SetUsername` (lines 71-73). -/
def SetUsername (s : Session Lure) (username : String) : Session Lure :=
  { s with Username := username }

/-- The setter `SetPassword` (lines 75-77). -/
def SetPassword (s : Session Lure) (password : String) : Session Lure :=
  { s with Password := password }

/-- The setter `SetCustom` (lines 79-81): an upsert into `Custom`. -/
def SetCustom (s : Session Lure) (name : String) (value : String) : Session Lure :=
  { s with Custom := s.Custom.insert name value }

/-- The method `AddCookieAuthToken` (lines 83-101).  The first `if` creates the inner map
of `domain` when it is missing; the second updates the stored token through
its pointer when `key` is present (leaving `Expires` as it was) and stores a
fresh token otherwise (with `Path` and `Expires` at their zero values). -/
def AddCookieAuthToken (s : Session Lure) (domain : String) (key : String) (value : String)
    (path : String) (http_only : Bool) (_expires : Time) : Session Lure :=
  let cookieTokens : GoMap (GoMap CookieToken) :=
    match s.CookieTokens.lookup domain with
    | some _ => s.CookieTokens
    | none => s.CookieTokens.insert domain ∅
  let inner : GoMap CookieToken := (cookieTokens.lookup domain).getD ∅
  match inner.lookup key with
  | some tk =>
    let tk1 : CookieToken :=
      { tk with Name := key, Value := value, Path := path, HttpOnly := http_only }
    { s with CookieTokens := cookieTokens.insert domain (inner.insert key tk1) }
  | none =>
    let tk1 : CookieToken :=
      { Name := key, Value := value, Path := "", HttpOnly := http_only, Expires := 0 }
    { s with CookieTokens := cookieTokens.insert domain (inner.insert key tk1) }

/-- The match rule of lines 118-123: a requirement with a regex matches the
cookie name `tk` when the regex does; one without matches when its `name`
equals `tk`. -/
def CookieAuthToken.isMatch (tok : CookieAuthToken) (tk : String) : Bool :=
  match tok.re with
  | some re => re.MatchString tk
  | none => decide (tok.name = tk)

/-- Lines 104-112: the working copy `tcopy`.  Every key of `authTokens` gets an
entry, which starts as the empty slice and receives the non-optional
requirements of that key in order. -/
def buildTcopy (authTokens : GoMap (List CookieAuthToken)) : GoMap (List CookieAuthToken) :=
  authTokens.entries.foldl
    (fun tcopy kv =>
      kv.2.foldl
        (fun tcopy tok =>
          if !tok.optional then
            tcopy.insert kv.1 (((tcopy.lookup kv.1).getD []) ++ [tok])
          else tcopy)
        (tcopy.insert kv.1 []))
    ∅

/-- Lines 117-131: the loop `for an, at := range al`, entered with the rest of
`al` still to visit and the index `an` of its head.  At the first requirement
that matches `tk`, entry `an` is cut out of `tcopy[domain]`, the domain is
deleted when nothing is left, and the loop ends. -/
def scanRequirements (domain : String) (tk : String) (tcopy : GoMap (List CookieAuthToken)) :
    List CookieAuthToken → Nat → GoMap (List CookieAuthToken)
  | [], _ => tcopy
  | tok :: rest, an =>
    if tok.isMatch tk then
      let cur := (tcopy.lookup domain).getD []
      let tcopy1 := tcopy.insert domain (cur.take an ++ cur.drop (an + 1))
      if ((tcopy1.lookup domain).getD []).length = 0 then tcopy1.erase domain else tcopy1
    else scanRequirements domain tk tcopy rest (an + 1)

/-- Lines 116-132: what one captured cookie name `tk` of `domain` does to the
working copy. -/
def visitCookie (tcopy : GoMap (List CookieAuthToken)) (domain : String) (tk : String) :
    GoMap (List CookieAuthToken) :=
  match tcopy.lookup domain with
  | some al => scanRequirements domain tk tcopy al 0
  | none => tcopy

/-- Lines 114-134: the scan over the captured cookies, domain by domain in the
order of the entries of `CookieTokens`, and within a domain in the order of
the entries of its inner map. -/
def scanCaptured (tcopy : GoMap (List CookieAuthToken)) (cookieTokens : GoMap (GoMap CookieToken)) :
    GoMap (List CookieAuthToken) :=
  cookieTokens.entries.foldl
    (fun tcopy dt => dt.2.entries.foldl (fun tcopy kt => visitCookie tcopy dt.1 kt.1) tcopy)
    tcopy

/-- The method `AllCookieAuthTokensCaptured` (lines 103-140): the working copy is
built, the captured cookies are scanned, and the result is whether the working
copy has no entry left (`len(tcopy) == 0`). -/
def AllCookieAuthTokensCaptured (s : Session Lure) (authTokens : GoMap (List CookieAuthToken)) :
    Bool :=
  let tcopy := scanCaptured (buildTcopy authTokens) s.CookieTokens
  if tcopy.entries.length = 0 then true else false

/-- What `Finish` does besides changing the session. -/
inductive Effect where
  /-- The statement `close(s.DoneSignal)` on an open channel: the broadcast. -/
  | closeDoneSignal
  /-- The statement `close(s.DoneSignal)` on a channel that is closed already:
  Go panics and the rest of `Finish` does not run. -/
  | panicCloseOfClosedChannel
  /-- The statement `close(s.DoneSignal)` when the field holds nil: Go panics.
  The test of line 146 keeps `Finish` away from it when nothing else runs
  between that test and the `close`. -/
  | panicCloseOfNilChannel
  /-- The statement `go s.SendSessionDetailsToTelegramBot()`. -/
  | goSendSessionDetails
  deriving DecidableEq, Repr

/-- The method `Finish` (lines 142-153): the session after the call and the effects of
the call, in order. -/
def Finish (s : Session Lure) (is_auth_url : Bool) : Session Lure × List Effect :=
  if !s.IsDone then
    let s1 : Session Lure := { s with IsDone := true, IsAuthUrl := is_auth_url }
    match s1.DoneSignal with
    | some ch =>
      if ch.closed then (s1, [Effect.panicCloseOfClosedChannel])
      else ({ s1 with DoneSignal := none }, [Effect.closeDoneSignal, Effect.goSendSessionDetails])
    | none => (s1, [Effect.goSendSessionDetails])
  else (s, [Effect.goSendSessionDetails])

/-- The cookie names captured under `domain`, in the order the scan visits
them; none when the domain has no inner map. -/
def capturedNames (s : Session Lure) (domain : String) : List String :=
  match s.CookieTokens.lookup domain with
  | some tokens => tokens.keys
  | none => []

/-- The non-optional requirements of a list, in order. -/
def nonOptional (l : List CookieAuthToken) : List CookieAuthToken :=
  l.filter (fun tok => !tok.optional)

/-! Sessions, requirements and operation sequences used as concrete inputs -/

/-- A mandatory requirement for the cookie named `SID`, without regex. -/
def reqSID : CookieAuthToken := { name := "SID", re := none, optional := false }

/-- An optional requirement for the cookie named `SID`, without regex. -/
def reqSIDOptional : CookieAuthToken := { name := "SID", re := none, optional := true }

/-- A mandatory requirement for the cookie named `TOKEN`, without regex. -/
def reqTOKEN : CookieAuthToken := { name := "TOKEN", re := none, optional := false }

/-- A mandatory requirement whose regex matches every cookie name and whose
name is `TOKEN`. -/
def reqAnyName : CookieAuthToken :=
  { name := "TOKEN", re := some { MatchString := fun _ => true }, optional := false }

/-- A fresh session. -/
def freshSession : Session Unit := NewSession "id" "example"

/-- The session of the happy path: one cookie `SID` captured under
`example.com`. -/
def sidSession : Session Unit := AddCookieAuthToken freshSession "example.com" "SID" "abc" "/" true 0

/-- Cookies `SID` and `TOKEN` captured under `example.com`, `TOKEN` last. -/
def sidTokenSession : Session Unit :=
  AddCookieAuthToken sidSession "example.com" "TOKEN" "xyz" "/" true 0

/-- Cookies `TOKEN` and `SID` captured under `example.com`, `SID` last. -/
def tokenSidSession : Session Unit :=
  AddCookieAuthToken (AddCookieAuthToken freshSession "example.com" "TOKEN" "xyz" "/" true 0)
    "example.com" "SID" "abc" "/" true 0

/-- The operations the proxy invokes on a session. -/
inductive Op where
  | setUsername (username : String)
  | setPassword (password : String)
  | setCustom (name : String) (value : String)
  | addCookieAuthToken (domain : String) (key : String) (value : String) (path : String)
      (http_only : Bool) (expires : Time)
  | allCookieAuthTokensCaptured (authTokens : GoMap (List CookieAuthToken))
  | finish (is_auth_url : Bool)

/-- The session after one operation.  `AllCookieAuthTokensCaptured` writes to
no field of the session: its body assigns only to the local `tcopy`. -/
def Op.apply (s : Session Lure) : Op → Session Lure
  | Op.setUsername username => SetUsername s username
  | Op.setPassword password => SetPassword s password
  | Op.setCustom name value => SetCustom s name value
  | Op.addCookieAuthToken domain key value path http_only expires =>
    AddCookieAuthToken s domain key value path http_only expires
  | Op.allCookieAuthTokensCaptured _ => s
  | Op.finish is_auth_url => (Finish s is_auth_url).1

/-- The session after a sequence of operations, applied from left to right. -/
def run (s : Session Lure) (ops : List Op) : Session Lure :=
  ops.foldl Op.apply s

/-- The sessions the module produces: those reached from `NewSession` by a
sequence of operations. -/
def Reachable (s : Session Lure) : Prop :=
  ∃ (genRandomToken name : String) (ops : List Op), s = run (NewSession genRandomToken name) ops

/-! Definitions used to reason about the scan -/

/-- What one captured cookie name does to the entry of its own domain in the
working copy: nothing when the domain is absent or no requirement matches,
otherwise the first matching requirement goes and an emptied entry is
deleted. -/
def domStep : Option (List CookieAuthToken) → String → Option (List CookieAuthToken)
  | none, _ => none
  | some al, tk =>
    if al.any (fun r => r.isMatch tk) then
      if (al.eraseP (fun r => r.isMatch tk)).length = 0 then none
      else some (al.eraseP (fun r => r.isMatch tk))
    else some al

/-- The requirements left of `al` after the cookie names `cs`, visited in
order, have each removed the first requirement they match. -/
def consume (al : List CookieAuthToken) (cs : List String) : List CookieAuthToken :=
  cs.foldl (fun l c => l.eraseP (fun r => r.isMatch c)) al

/-- The cookie names stored under `d` in a list of (domain, inner map)
entries, in entry order. -/
def namesAt (l : List (Σ _ : String, GoMap CookieToken)) (d : String) : List String :=
  match l.dlookup d with
  | some m => m.keys
  | none => []

/-! Definitions used to state the session invariants -/

/-- The token stored at `CookieTokens[domain][key]`, if there is one. -/
def tokenAt (s : Session Lure) (domain : String) (key : String) : Option CookieToken :=
  match s.CookieTokens.lookup domain with
  | some tokens => tokens.lookup key
  | none => none

/-- The effects of one operation: only `Finish` has any. -/
def Op.effects (s : Session Lure) : Op → List Effect
  | Op.finish is_auth_url => (Finish s is_auth_url).2
  | _ => []

/-- The effects of a sequence of operations, applied from left to right, in
the order they happen. -/
def runEffects (s : Session Lure) : List Op → List Effect
  | [] => []
  | op :: ops => op.effects s ++ runEffects (op.apply s) ops

/-- The token `AddCookieAuthToken` leaves at `CookieTokens[domain][key]`, given
what was stored there before: an update of the stored token, or a fresh
token. -/
def storedToken (old : Option CookieToken) (key : String) (value : String) (path : String)
    (http_only : Bool) : CookieToken :=
  match old with
  | some tk => { tk with Name := key, Value := value, Path := path, HttpOnly := http_only }
  | none => { Name := key, Value := value, Path := "", HttpOnly := http_only, Expires := 0 }

/-- A session with the cookie `SID` under `example.com` stored with an expiry
time of 7, as a persistence layer could have loaded it. -/
def expiringSession : Session Unit :=
  { freshSession with
    CookieTokens := AList.singleton "example.com"
      (AList.singleton "SID"
        { Name := "SID", Value := "old", Path := "/old", HttpOnly := false, Expires := 7 }) }

/-! The notifier dispatcher -/

/-- The characters `fmt.Sprintf` produces for a format in which every verb is
`%s`, given one string operand per verb, as in its calls on strings in
`session.go`: the format is copied, and each `%s` is replaced by the next
operand, copied as it is. -/
def sprintfChars : List Char → List String → List Char
  | [], _ => []
  | '%' :: 's' :: rest, arg :: args => arg.data ++ sprintfChars rest args
  | c :: rest, args => c :: sprintfChars rest args

/-- The function `fmt.Sprintf` on a format whose verbs are all `%s`, with
string operands. -/
def Sprintf (format : String) (args : List String) : String :=
  String.mk (sprintfChars format.data args)

/-- Lines 157-173 of `SendSessionDetailsToTelegramBot`: the value of the local
`sessionMessage` when the summary is complete.  The loop over `s.Custom`
visits the entries in the order of the association list and uses the value of
each entry only. -/
def sessionMessage (s : Session Lure) : String :=
  let sessionMessage :=
    Sprintf
      ("<b>New Session Captured</b>\n\n" ++
        "<code>Name:</code> <b>%s</b>\n" ++
        "<code>Username:</code> <i>%s</i>\n" ++
        "<code>Password:</code> <span class=\"tg-spoiler\">%s</span>\n" ++
        "<code>Landing URL:</code> <u>%s</u>\n" ++
        "<code>IP Address:</code> <code>%s</code>\n" ++
        "<code>User Agent:</code> <pre>%s</pre>")
      [s.Name, s.Username, s.Password, s.RedirectURL, s.RemoteAddr, s.UserAgent]
  if s.Custom.entries.length > 0 then
    s.Custom.entries.foldl (fun sessionMessage kv => sessionMessage ++ Sprintf "<i>%s</i>\n" [kv.2])
      (sessionMessage ++ "\n\n<b>Custom Fields:</b>\n")
  else sessionMessage

/-- The replacement `regexp.MustCompile("<[^>]*>").ReplaceAllString(s, "")` on
characters.  Outside a match (`false`) a `<` starts a match exactly when a `>`
follows somewhere, and the match runs to the first such `>`; inside a match
(`true`) characters are dropped up to and including that `>`. -/
def stripChars : Bool → List Char → List Char
  | _, [] => []
  | true, c :: rest => if c = '>' then stripChars false rest else stripChars true rest
  | false, c :: rest =>
    if c = '<' ∧ '>' ∈ rest then stripChars true rest else c :: stripChars false rest

/-- The helper `stripHTMLTags` (lines 211-213). -/
def stripHTMLTags (s : String) : String :=
  String.mk (stripChars false s.data)

/-- The console log format as the spec gives it, "the HTML template with every
`<...>` run removed (regex `<[^>]*>` to empty)", as a relation between the
characters of a text and of its tag-stripped form.  A text in which no `<` has
a `>` after it holds no run and stays as it is.  Otherwise the text starts
with a part `t` without `<`, then the leftmost run: a `<`, a part `w` without
`>`, and a `>`; the run goes, `t` stays, and what follows the run is stripped
in the same way. -/
inductive TagStripped : List Char → List Char → Prop where
  | noRun (t : List Char) (h : ∀ x y, t = x ++ '<' :: y → '>' ∉ y) : TagStripped t t
  | run (t w after out : List Char) (ht : '<' ∉ t) (hw : '>' ∉ w)
      (hafter : TagStripped after out) :
      TagStripped (t ++ '<' :: (w ++ '>' :: after)) (t ++ out)

/-- What the notifier code does to the outside world. -/
inductive Output where
  /-- A line written by `fmt.Println` or `fmt.Printf`, newline included. -/
  | stdout (text : String)
  /-- A call of `log.Warning`. -/
  | logWarning (text : String)
  /-- The statement `go SendFormattedMessageToTelegramBot(message, botToken, userID)`. -/
  | goSendFormattedMessageToTelegramBot (message : String) (botToken : String) (userID : String)
  /-- A call of `http.PostForm(url, data)`; `data` is a `url.Values`, a map
  from field name to list of values. -/
  | postForm (url : String) (data : GoMap (List String))

/-- Whether an output is a call of `http.PostForm`. -/
def Output.isPostForm : Output → Bool
  | Output.postForm _ _ => true
  | _ => false

/-- Whether an output is the `go` statement that starts the post. -/
def Output.isGoSend : Output → Bool
  | Output.goSendFormattedMessageToTelegramBot _ _ _ => true
  | _ => false

/-- The method `SendSessionDetailsToTelegramBot` (lines 155-186): the summary is
built, its tag-stripped form is printed, and the post is started unless the
bot token or the user id is empty. -/
def SendSessionDetailsToTelegramBot (s : Session Lure) : List Output :=
  let printed := Output.stdout ("Session message: " ++ stripHTMLTags (sessionMessage s) ++ "\n")
  if s.TelegramBotToken = "" ∨ s.TelegramUserID = "" then
    [printed,
      Output.logWarning
        "Telegram bot token or user ID not set. Telegram notifications are disabled."]
  else
    [printed,
      Output.goSendFormattedMessageToTelegramBot (sessionMessage s) s.TelegramBotToken
        s.TelegramUserID]

/-- What `http.PostForm` returns: an error, or a response with its status code
and the body read from it. -/
inductive PostResult where
  | err (text : String)
  | resp (StatusCode : Nat) (Body : String)

/-- The function `SendFormattedMessageToTelegramBot` (lines 189-208).  `post`
stands for the network: it gives the result of the one `http.PostForm`
call. -/
def SendFormattedMessageToTelegramBot (message : String) (botToken : String) (userID : String)
    (post : String → GoMap (List String) → PostResult) : List Output :=
  let apiURL := Sprintf "https://api.telegram.org/bot%s/sendMessage" [botToken]
  let data : GoMap (List String) :=
    (((∅ : GoMap (List String)).insert "chat_id" [userID]).insert "text" [message]).insert
      "parse_mode" ["HTML"]
  match post apiURL data with
  | PostResult.err text =>
    [Output.postForm apiURL data,
      Output.stdout ("Error sending message to Telegram bot: " ++ text ++ "\n")]
  | PostResult.resp StatusCode Body =>
    if StatusCode ≠ 200 then
      [Output.postForm apiURL data,
        Output.stdout
          ("Unexpected status code: " ++ toString StatusCode ++ ", response: " ++ Body ++ "\n")]
    else [Output.postForm apiURL data]

/-- The fixed HTML template of the summary as the spec gives it, with the six
values put in as they are. -/
def summaryTemplate (name : String) (username : String) (password : String)
    (redirectURL : String) (remoteAddr : String) (userAgent : String) : String :=
  "<b>New Session Captured</b>\n\n<code>Name:</code> <b>" ++ name ++
    "</b>\n<code>Username:</code> <i>" ++ username ++
    "</i>\n<code>Password:</code> <span class=\"tg-spoiler\">" ++ password ++
    "</span>\n<code>Landing URL:</code> <u>" ++ redirectURL ++
    "</u>\n<code>IP Address:</code> <code>" ++ remoteAddr ++
    "</code>\n<code>User Agent:</code> <pre>" ++ userAgent ++ "</pre>"

/-- One line `<i>value</i>` per custom value, as the spec gives it. -/
def customLines : List String → String
  | [] => ""
  | value :: values => "<i>" ++ value ++ "</i>\n" ++ customLines values

/-- What follows the template in the summary, as the spec gives it: nothing
when there is no custom value, otherwise the header and the lines. -/
def customFields (values : List String) : String :=
  match values with
  | [] => ""
  | _ :: _ => "\n\n<b>Custom Fields:</b>\n" ++ customLines values

/-- A session with credentials, two custom fields and notifier credentials. -/
def aliceSession : Session Unit :=
  { SetCustom (SetCustom (SetPassword (SetUsername freshSession "alice") "s3<b>cret") "otp" "123456")
      "pin" "0000" with
    TelegramBotToken := "T0K", TelegramUserID := "42" }

/-! Calls of `Finish` that run at the same time -/

/-- Where a goroutine stands in its call of `Finish`: the line of
`session.go` whose access to the session it makes next, one point per access
(lines 143-148 and 152), or the end of the call. -/
inductive Pc where
  /-- The test `!s.IsDone`. -/
  | line143
  /-- The assignment `s.IsDone = true`. -/
  | line144
  /-- The assignment `s.IsAuthUrl = is_auth_url`. -/
  | line145
  /-- The test `s.DoneSignal != nil`. -/
  | line146
  /-- The statement `close(s.DoneSignal)`. -/
  | line147
  /-- The assignment `s.DoneSignal = nil`. -/
  | line148
  /-- The statement `go s.SendSessionDetailsToTelegramBot()`. -/
  | line152
  /-- The call has returned. -/
  | returned
  /-- The call has panicked. -/
  | panicked
  deriving DecidableEq, Repr

/-- A goroutine in a call `s.Finish(is_auth_url)`. -/
structure Goroutine where
  is_auth_url : Bool
  pc : Pc
  deriving DecidableEq, Repr

/-- One statement of `Finish` (lines 143-152), made by goroutine `g` on the
session as it stands: the session after it, the goroutine after it, and the
effects of the statement.  A `close` marks the channel closed; the field keeps
the channel until line 148 sets it to nil. -/
def stepFinish (s : Session Lure) (g : Goroutine) : Session Lure × Goroutine × List Effect :=
  match g.pc with
  | Pc.line143 =>
    if !s.IsDone then (s, { g with pc := Pc.line144 }, [])
    else (s, { g with pc := Pc.line152 }, [])
  | Pc.line144 => ({ s with IsDone := true }, { g with pc := Pc.line145 }, [])
  | Pc.line145 => ({ s with IsAuthUrl := g.is_auth_url }, { g with pc := Pc.line146 }, [])
  | Pc.line146 =>
    match s.DoneSignal with
    | some _ => (s, { g with pc := Pc.line147 }, [])
    | none => (s, { g with pc := Pc.line152 }, [])
  | Pc.line147 =>
    match s.DoneSignal with
    | some ch =>
      if ch.closed then (s, { g with pc := Pc.panicked }, [Effect.panicCloseOfClosedChannel])
      else
        ({ s with DoneSignal := some { closed := true } }, { g with pc := Pc.line148 },
          [Effect.closeDoneSignal])
    | none => (s, { g with pc := Pc.panicked }, [Effect.panicCloseOfNilChannel])
  | Pc.line148 => ({ s with DoneSignal := none }, { g with pc := Pc.line152 }, [])
  | Pc.line152 => (s, { g with pc := Pc.returned }, [Effect.goSendSessionDetails])
  | Pc.returned => (s, g, [])
  | Pc.panicked => (s, g, [])

/-- One session shared by goroutines that each make one call of `Finish`,
and the effects so far, in the order they happened. -/
structure World (Lure : Type) where
  session : Session Lure
  goroutines : Nat → Goroutine
  effects : List Effect

/-- Goroutine `i` makes its next statement. -/
def World.step (w : World Lure) (i : Nat) : World Lure :=
  { session := (stepFinish w.session (w.goroutines i)).1
    goroutines := fun j => if j = i then (stepFinish w.session (w.goroutines i)).2.1
      else w.goroutines j
    effects := w.effects ++ (stepFinish w.session (w.goroutines i)).2.2 }

/-- The world after a schedule: the list of the goroutines that make a
statement, in the order they make it. -/
def runSchedule (w : World Lure) (schedule : List Nat) : World Lure :=
  schedule.foldl World.step w

/-- The world in which goroutine `i` is about to call
`s.Finish(is_auth_url i)` and nothing has happened yet. -/
def startWorld (s : Session Lure) (is_auth_url : Nat → Bool) : World Lure :=
  { session := s
    goroutines := fun i => { is_auth_url := is_auth_url i, pc := Pc.line143 }
    effects := [] }

/-- The schedule in which the calls of the goroutines of `order` do not
overlap: each goroutine makes the seven statements of its call before the
next one starts. -/
def oneAfterAnother : List Nat → List Nat
  | [] => []
  | i :: order => List.replicate 7 i ++ oneAfterAnother order

/-- A goroutine makes `n` statements with nothing else running in between:
the session, the goroutine and the effects after them. -/
def runAlone : Nat → Session Lure → Goroutine → Session Lure × Goroutine × List Effect
  | 0, s, g => (s, g, [])
  | n + 1, s, g =>
    ((runAlone n (stepFinish s g).1 (stepFinish s g).2.1).1,
      (runAlone n (stepFinish s g).1 (stepFinish s g).2.1).2.1,
      (stepFinish s g).2.2 ++ (runAlone n (stepFinish s g).1 (stepFinish s g).2.1).2.2)

/-! Lemmas about the scan -/

theorem scanRequirements_eq (d tk : String) (t : GoMap (List CookieAuthToken))
    (cur : List CookieAuthToken) (h : t.lookup d = some cur) :
    ∀ (rest pre : List CookieAuthToken), cur = pre ++ rest →
      (∀ x ∈ pre, x.isMatch tk = false) →
      scanRequirements d tk t rest pre.length =
        if rest.any (fun r => r.isMatch tk) then
          (if (cur.eraseP (fun r => r.isMatch tk)).length = 0
            then (t.insert d (cur.eraseP (fun r => r.isMatch tk))).erase d
            else t.insert d (cur.eraseP (fun r => r.isMatch tk)))
        else t := by
  intro rest
  induction rest with
  | nil => intro pre _ _; simp [scanRequirements]
  | cons r rest ih =>
    intro pre hcur hpre
    by_cases hr : r.isMatch tk = true
    · have he : cur.eraseP (fun r => r.isMatch tk) = pre ++ rest := by
        rw [hcur, List.eraseP_append_right _ (by simpa using hpre), List.eraseP_cons_of_pos (by simpa using hr)]
      have ht : List.take pre.length cur ++ List.drop (pre.length + 1) cur = pre ++ rest := by
        rw [hcur]; simp
      have hany : (r :: rest).any (fun r => r.isMatch tk) = true := by simp [hr]
      rw [if_pos hany]
      simp only [scanRequirements, hr, if_true, h, Option.getD_some, ht, AList.lookup_insert, he]
    · have hr2 : r.isMatch tk = false := by simpa using hr
      have := ih (pre ++ [r]) (by simp [hcur]) (by
        intro x hx
        rcases List.mem_append.1 hx with hx | hx
        · exact hpre x hx
        · simp at hx; rw [hx]; exact hr2)
      simp only [List.length_append, List.length_singleton] at this
      simp [scanRequirements, hr2, this]

theorem lookup_visitCookie (t : GoMap (List CookieAuthToken)) (d tk d2 : String) :
    (visitCookie t d tk).lookup d2 = if d2 = d then domStep (t.lookup d) tk else t.lookup d2 := by
  unfold visitCookie
  cases h : t.lookup d with
  | none =>
    by_cases hd : d2 = d
    · subst hd; simp [domStep, h]
    · simp [hd]
  | some cur =>
    have := scanRequirements_eq d tk t cur h cur [] (by simp) (by simp)
    simp only [List.length_nil] at this
    simp only [this, domStep]
    by_cases hany : cur.any (fun r => r.isMatch tk) = true
    · rw [if_pos hany, if_pos hany]
      by_cases hlen : (cur.eraseP (fun r => r.isMatch tk)).length = 0
      · rw [if_pos hlen, if_pos hlen]
        by_cases hd : d2 = d
        · subst hd; simp [AList.lookup_erase]
        · rw [if_neg hd, AList.lookup_erase_ne hd, AList.lookup_insert_ne hd]
      · rw [if_neg hlen, if_neg hlen]
        by_cases hd : d2 = d
        · subst hd; simp [AList.lookup_insert]
        · rw [if_neg hd, AList.lookup_insert_ne hd]
    · rw [if_neg hany, if_neg hany]
      by_cases hd : d2 = d
      · subst hd; simp [h]
      · simp [hd]

theorem entries_length_eq_zero_iff {V : Type} (t : GoMap V) :
    t.entries.length = 0 ↔ ∀ d, t.lookup d = none := by
  constructor
  · intro h d
    have : t.entries = [] := List.length_eq_zero.1 h
    have ht : t = ∅ := AList.ext (by simpa using this)
    rw [ht]; exact AList.lookup_empty d
  · intro h
    cases hl : t.entries with
    | nil => rfl
    | cons e l =>
      exfalso
      have hm : e.1 ∈ t := by
        rw [AList.mem_keys]; unfold AList.keys; rw [hl]; simp [List.keys]
      have := h e.1
      rw [AList.lookup_eq_none] at this
      exact this hm

theorem lookup_foldl_visitCookie (d d2 : String) (ks : List (Σ _ : String, CookieToken)) :
    ∀ t : GoMap (List CookieAuthToken),
      (ks.foldl (fun tcopy kt => visitCookie tcopy d kt.1) t).lookup d2 =
        if d2 = d then (ks.map (fun kt => kt.1)).foldl domStep (t.lookup d) else t.lookup d2 := by
  induction ks with
  | nil =>
    intro t
    by_cases hd : d2 = d
    · subst hd; simp
    · simp [hd]
  | cons k ks ih =>
    intro t
    simp only [List.foldl_cons, List.map_cons]
    rw [ih, lookup_visitCookie, lookup_visitCookie]
    by_cases hd : d2 = d <;> simp [hd]

theorem lookup_foldl_domains (d : String) (l : List (Σ _ : String, GoMap CookieToken)) :
    l.NodupKeys → ∀ t : GoMap (List CookieAuthToken),
      (l.foldl (fun tcopy dt => dt.2.entries.foldl (fun tcopy kt => visitCookie tcopy dt.1 kt.1) tcopy)
          t).lookup d =
        (namesAt l d).foldl domStep (t.lookup d) := by
  induction l with
  | nil => intro _ t; simp [namesAt]
  | cons e l ih =>
    intro hnd t
    rw [List.nodupKeys_cons] at hnd
    simp only [List.foldl_cons]
    rw [ih hnd.2, lookup_foldl_visitCookie]
    obtain ⟨k, m⟩ := e
    by_cases hd : d = k
    · subst hd
      have hnone : l.dlookup d = none := List.dlookup_eq_none.2 hnd.1
      simp [namesAt, hnone, List.dlookup_cons_eq, AList.keys, List.keys]
    · have hne : k ≠ d := fun h => hd h.symm
      simp [namesAt, hd, List.dlookup_cons_ne l (a := d) ⟨k, m⟩ hd]

theorem lookup_scanCaptured (t : GoMap (List CookieAuthToken)) (s : Session Lure) (d : String) :
    (scanCaptured t s.CookieTokens).lookup d = (capturedNames s d).foldl domStep (t.lookup d) := by
  unfold scanCaptured
  rw [lookup_foldl_domains d _ s.CookieTokens.nodupKeys]
  rfl

theorem lookup_foldl_append (k d : String) (v : List CookieAuthToken) :
    ∀ (t : GoMap (List CookieAuthToken)) (acc : List CookieAuthToken), t.lookup k = some acc →
      (v.foldl
          (fun tcopy tok =>
            if !tok.optional then tcopy.insert k (((tcopy.lookup k).getD []) ++ [tok]) else tcopy)
          t).lookup d =
        if d = k then some (acc ++ nonOptional v) else t.lookup d := by
  induction v with
  | nil =>
    intro t acc h
    by_cases hd : d = k
    · subst hd; simp [nonOptional, h]
    · simp [hd]
  | cons r v ih =>
    intro t acc h
    simp only [List.foldl_cons]
    by_cases hr : r.optional = true
    · simp only [hr, Bool.not_true, Bool.false_eq_true, if_false]
      rw [ih t acc h]
      simp [nonOptional, hr]
    · have hr2 : r.optional = false := by simpa using hr
      simp only [hr2, Bool.not_false, if_true]
      rw [ih (t.insert k (((t.lookup k).getD []) ++ [r])) (acc ++ [r])
        (by rw [AList.lookup_insert, h]; rfl)]
      by_cases hd : d = k
      · simp [hd, nonOptional, hr2]
      · simp [hd, AList.lookup_insert_ne hd]

theorem lookup_foldl_build (d : String) (l : List (Σ _ : String, List CookieAuthToken)) :
    l.NodupKeys → ∀ t : GoMap (List CookieAuthToken),
      (l.foldl
          (fun tcopy kv =>
            kv.2.foldl
              (fun tcopy tok =>
                if !tok.optional then
                  tcopy.insert kv.1 (((tcopy.lookup kv.1).getD []) ++ [tok])
                else tcopy)
              (tcopy.insert kv.1 []))
          t).lookup d =
        match l.dlookup d with
        | some v => some (nonOptional v)
        | none => t.lookup d := by
  induction l with
  | nil => intro _ t; simp
  | cons e l ih =>
    intro hnd t
    rw [List.nodupKeys_cons] at hnd
    simp only [List.foldl_cons]
    rw [ih hnd.2]
    obtain ⟨k, v⟩ := e
    by_cases hd : d = k
    · subst hd
      have hnone : l.dlookup d = none := List.dlookup_eq_none.2 hnd.1
      rw [hnone, List.dlookup_cons_eq]
      simp only
      rw [lookup_foldl_append d d v _ [] (AList.lookup_insert _)]
      simp
    · rw [List.dlookup_cons_ne l (a := d) ⟨k, v⟩ hd]
      cases hl : l.dlookup d with
      | some w => rfl
      | none =>
        simp only
        rw [lookup_foldl_append k d v _ [] (AList.lookup_insert _)]
        simp [hd, AList.lookup_insert_ne hd]

theorem lookup_buildTcopy (a : GoMap (List CookieAuthToken)) (d : String) :
    (buildTcopy a).lookup d = (a.lookup d).map nonOptional := by
  unfold buildTcopy
  rw [lookup_foldl_build d _ a.nodupKeys]
  unfold AList.lookup
  cases a.entries.dlookup d <;> simp

theorem foldl_domStep_none (cs : List String) : cs.foldl domStep none = none := by
  induction cs with
  | nil => rfl
  | cons c cs ih => simpa [domStep] using ih

theorem consume_nil (cs : List String) : consume [] cs = [] := by
  induction cs with
  | nil => rfl
  | cons c cs ih => simpa [consume] using ih

theorem consume_cons (al : List CookieAuthToken) (c : String) (cs : List String) :
    consume al (c :: cs) = consume (al.eraseP (fun r => r.isMatch c)) cs := rfl

theorem foldl_domStep_some (cs : List String) :
    ∀ al : List CookieAuthToken,
      cs.foldl domStep (some al) = none ↔ al ≠ [] ∧ consume al cs = [] := by
  induction cs with
  | nil => intro al; simp [consume]
  | cons c cs ih =>
    intro al
    rw [List.foldl_cons, consume_cons]
    by_cases hany : al.any (fun r => r.isMatch c) = true
    · by_cases hlen : (al.eraseP (fun r => r.isMatch c)).length = 0
      · have he : al.eraseP (fun r => r.isMatch c) = [] := List.length_eq_zero.1 hlen
        have hne : al ≠ [] := by
          intro h; rw [h] at hany; simp at hany
        simp only [domStep, hany, hlen, if_true]
        rw [foldl_domStep_none, he, consume_nil]
        simp [hne]
      · have hne : al ≠ [] := by
          intro h; rw [h] at hany; simp at hany
        have hne2 : al.eraseP (fun r => r.isMatch c) ≠ [] := fun h => hlen (by rw [h]; rfl)
        simp only [domStep, hany, hlen, if_true, if_false]
        rw [ih]
        simp [hne, hne2]
    · have he : al.eraseP (fun r => r.isMatch c) = al := by
        apply List.eraseP_of_forall_not
        intro x hx hp
        apply hany
        exact List.any_eq_true.2 ⟨x, hx, hp⟩
      have hany2 : al.any (fun r => r.isMatch c) = false := by simpa using hany
      simp only [domStep, hany2, Bool.false_eq_true, if_false]
      rw [ih, he]

/-- The evaluator, domain by domain: it returns true exactly when every domain
of `authTokens` has a non-optional requirement and the captured cookie names
of that domain, in visiting order, consume all of them. -/
theorem AllCookieAuthTokensCaptured_iff (s : Session Lure) (a : GoMap (List CookieAuthToken)) :
    AllCookieAuthTokensCaptured s a = true ↔
      ∀ d l, a.lookup d = some l →
        nonOptional l ≠ [] ∧ consume (nonOptional l) (capturedNames s d) = [] := by
  unfold AllCookieAuthTokensCaptured
  simp only [ite_eq_left_iff, Bool.false_eq_true, imp_false, not_not]
  rw [entries_length_eq_zero_iff]
  constructor
  · intro h d l hl
    have := h d
    rw [lookup_scanCaptured, lookup_buildTcopy, hl] at this
    exact (foldl_domStep_some _ _).1 this
  · intro h d
    rw [lookup_scanCaptured, lookup_buildTcopy]
    cases hl : a.lookup d with
    | none => exact foldl_domStep_none _
    | some l => exact (foldl_domStep_some _ _).2 (h d l hl)

theorem consume_eq_nil_matched (cs : List String) :
    ∀ al : List CookieAuthToken, consume al cs = [] →
      ∀ r ∈ al, ∃ c ∈ cs, r.isMatch c = true := by
  induction cs with
  | nil => intro al h r hr; simp [consume] at h; rw [h] at hr; simp at hr
  | cons c cs ih =>
    intro al h r hr
    rw [consume_cons] at h
    by_cases hm : r.isMatch c = true
    · exact ⟨c, by simp, hm⟩
    · have hr2 : r ∈ al.eraseP (fun r => r.isMatch c) :=
        (List.mem_eraseP_of_neg (by simpa using hm)).2 hr
      obtain ⟨c2, hc2, hm2⟩ := ih _ h r hr2
      exact ⟨c2, List.mem_cons_of_mem _ hc2, hm2⟩

theorem eraseP_eq_filter_not (p : CookieAuthToken → Bool) :
    ∀ al : List CookieAuthToken, (al.filter p).length ≤ 1 →
      al.eraseP p = al.filter (fun r => !p r) := by
  intro al
  induction al with
  | nil => intro _; rfl
  | cons x xs ih =>
    intro h
    by_cases hx : p x = true
    · rw [List.eraseP_cons_of_pos hx]
      rw [List.filter_cons_of_pos hx] at h
      have hnil : xs.filter p = [] := by
        apply List.length_eq_zero.1
        simp only [List.length_cons] at h
        omega
      have hall : ∀ y ∈ xs, (!p y) = true := by
        intro y hy
        have := List.filter_eq_nil_iff.1 hnil y hy
        simpa using this
      rw [List.filter_cons_of_neg (by simp [hx])]
      exact (List.filter_eq_self.2 hall).symm
    · have hx2 : p x = false := by simpa using hx
      rw [List.eraseP_cons_of_neg hx]
      rw [List.filter_cons_of_neg hx] at h
      rw [List.filter_cons_of_pos (by simp [hx2]), ih h]

theorem consume_eq_filter (cs : List String) :
    ∀ al : List CookieAuthToken,
      (∀ c ∈ cs, (al.filter (fun r => r.isMatch c)).length ≤ 1) →
      consume al cs = al.filter (fun r => !cs.any (fun c => r.isMatch c)) := by
  induction cs with
  | nil => intro al _; simp [consume]
  | cons c cs ih =>
    intro al h
    rw [consume_cons, eraseP_eq_filter_not _ al (h c (by simp))]
    rw [ih]
    · rw [List.filter_filter]
      congr 1
      funext r
      simp [Bool.and_comm]
    · intro c2 hc2
      have h2 := h c2 (List.mem_cons_of_mem _ hc2)
      have hsub : ((al.filter (fun r => !r.isMatch c)).filter (fun r => r.isMatch c2)).Sublist
          (al.filter (fun r => r.isMatch c2)) :=
        List.Sublist.filter _ (List.filter_sublist _)
      exact le_trans hsub.length_le h2

theorem consume_eq_nil_iff (cs : List String) (al : List CookieAuthToken)
    (h : ∀ c ∈ cs, (al.filter (fun r => r.isMatch c)).length ≤ 1) :
    consume al cs = [] ↔ ∀ r ∈ al, ∃ c ∈ cs, r.isMatch c = true := by
  constructor
  · exact consume_eq_nil_matched cs al
  · intro hall
    rw [consume_eq_filter cs al h, List.filter_eq_nil_iff]
    intro r hr
    obtain ⟨c, hc, hm⟩ := hall r hr
    simp only [Bool.not_eq_true, Bool.not_eq_false_eq_eq_true, Bool.not_not, List.any_eq_true]
    simpa using ⟨c, hc, hm⟩

theorem length_le_consume (cs : List String) :
    ∀ al : List CookieAuthToken, al.length ≤ (consume al cs).length + cs.length := by
  induction cs with
  | nil => intro al; simp [consume]
  | cons c cs ih =>
    intro al
    rw [consume_cons]
    have h1 := ih (al.eraseP (fun r => r.isMatch c))
    have h2 : al.length ≤ (al.eraseP (fun r => r.isMatch c)).length + 1 := by
      rw [List.length_eraseP]
      split <;> omega
    simp only [List.length_cons]
    omega

theorem mem_nonOptional (l : List CookieAuthToken) (r : CookieAuthToken) :
    r ∈ nonOptional l ↔ r ∈ l ∧ r.optional = false := by
  simp [nonOptional]

theorem lookup_singleton {V : Type} (k d : String) (v : V) :
    (AList.singleton k v : GoMap V).lookup d = if d = k then some v else none := by
  rw [← AList.insert_empty]
  by_cases hd : d = k
  · subst hd; rw [AList.lookup_insert, if_pos rfl]
  · rw [AList.lookup_insert_ne hd, if_neg hd, AList.lookup_empty]

theorem filter_name_length_le_one (c : String) :
    ∀ al : List CookieAuthToken, (al.map (fun r => r.name)).Nodup →
      (al.filter (fun r => decide (r.name = c))).length ≤ 1 := by
  intro al
  induction al with
  | nil => intro _; simp
  | cons x xs ih =>
    intro h
    rw [List.map_cons, List.nodup_cons] at h
    by_cases hx : x.name = c
    · have hnil : xs.filter (fun r => decide (r.name = c)) = [] := by
        rw [List.filter_eq_nil_iff]
        intro y hy hyc
        apply h.1
        rw [List.mem_map]
        exact ⟨y, hy, by rw [hx]; simpa using hyc⟩
      rw [List.filter_cons_of_pos (by simpa using hx), hnil]
      simp
    · rw [List.filter_cons_of_neg (by simpa using hx)]
      exact ih h.2

theorem forall_lookup_singleton {V : Type} (k : String) (v : V) (P : String → V → Prop)
    (h : P k v) : ∀ d l, (AList.singleton k v : GoMap V).lookup d = some l → P d l := by
  intro d l hl
  rw [lookup_singleton] at hl
  by_cases hd : d = k
  · rw [if_pos hd] at hl
    cases hl
    rw [hd]; exact h
  · rw [if_neg hd] at hl
    cases hl

/-! The completion evaluator -/

/-- C1, as stated, fails: with the requirements `[reqAnyName, reqSID]` under
`example.com` and the single captured cookie `SID`, every non-optional
requirement is matched by a captured cookie of its domain, yet the evaluator
returns false, because the one cookie is consumed by the first requirement. -/
theorem C1_counterexample :
    ¬ (AllCookieAuthTokensCaptured sidSession
          (AList.singleton "example.com" [reqAnyName, reqSID]) = true ↔
        ∀ d l, (AList.singleton "example.com" [reqAnyName, reqSID] :
            GoMap (List CookieAuthToken)).lookup d = some l →
          ∀ r ∈ l, r.optional = false → ∃ c ∈ capturedNames sidSession d, r.isMatch c = true) := by
  intro h
  have hfalse : AllCookieAuthTokensCaptured sidSession
      (AList.singleton "example.com" [reqAnyName, reqSID]) = false := by decide
  rw [hfalse] at h
  have := h.2 (forall_lookup_singleton "example.com" [reqAnyName, reqSID]
    (fun d l => ∀ r ∈ l, r.optional = false → ∃ c ∈ capturedNames sidSession d, r.isMatch c = true)
    (by
      intro r hr _
      refine ⟨"SID", by decide, ?_⟩
      simp only [List.mem_cons, List.mem_singleton, List.not_mem_nil, or_false] at hr
      rcases hr with rfl | rfl <;> decide))
  exact Bool.false_ne_true this

/-- C1 (amended): when the evaluator returns true, every non-optional
requirement of every required domain is matched by a cookie name captured
under that domain; and when every required domain has a non-optional
requirement and no captured cookie name matches more than one non-optional
requirement entry of its domain, the evaluator returns true exactly when every
non-optional requirement is so matched. -/
theorem C1_AllCookieAuthTokensCaptured_matched (s : Session Lure)
    (required : GoMap (List CookieAuthToken)) :
    (AllCookieAuthTokensCaptured s required = true →
      ∀ d l, required.lookup d = some l →
        ∀ r ∈ l, r.optional = false → ∃ c ∈ capturedNames s d, r.isMatch c = true) ∧
    ((∀ d l, required.lookup d = some l →
        (∃ r ∈ l, r.optional = false) ∧
        ∀ c ∈ capturedNames s d, ((nonOptional l).filter (fun r => r.isMatch c)).length ≤ 1) →
      (AllCookieAuthTokensCaptured s required = true ↔
        ∀ d l, required.lookup d = some l →
          ∀ r ∈ l, r.optional = false → ∃ c ∈ capturedNames s d, r.isMatch c = true)) := by
  have hfwd : AllCookieAuthTokensCaptured s required = true →
      ∀ d l, required.lookup d = some l →
        ∀ r ∈ l, r.optional = false → ∃ c ∈ capturedNames s d, r.isMatch c = true := by
    intro h d l hl r hr hopt
    have := ((AllCookieAuthTokensCaptured_iff s required).1 h d l hl).2
    exact consume_eq_nil_matched _ _ this r ((mem_nonOptional l r).2 ⟨hr, hopt⟩)
  refine ⟨hfwd, fun hyp => ⟨hfwd, fun hall => ?_⟩⟩
  rw [AllCookieAuthTokensCaptured_iff]
  intro d l hl
  obtain ⟨⟨r, hr, hopt⟩, hone⟩ := hyp d l hl
  refine ⟨?_, ?_⟩
  · intro hnil
    have : r ∈ nonOptional l := (mem_nonOptional l r).2 ⟨hr, hopt⟩
    rw [hnil] at this
    simp at this
  · rw [consume_eq_nil_iff _ _ hone]
    intro r2 hr2
    have := (mem_nonOptional l r2).1 hr2
    exact hall d l hl r2 this.1 this.2

/-- Witness for C1: the happy path of the spec, one mandatory requirement `SID`
and the cookie `SID` captured. -/
theorem C1_AllCookieAuthTokensCaptured_matched_witness :
    AllCookieAuthTokensCaptured sidSession (AList.singleton "example.com" [reqSID]) = true :=
  ((C1_AllCookieAuthTokensCaptured_matched sidSession (AList.singleton "example.com" [reqSID])).2
    (forall_lookup_singleton "example.com" [reqSID]
      (fun d l => (∃ r ∈ l, r.optional = false) ∧
        ∀ c ∈ capturedNames sidSession d,
          ((nonOptional l).filter (fun r => r.isMatch c)).length ≤ 1)
      (by decide))).2
    (forall_lookup_singleton "example.com" [reqSID]
      (fun d l => ∀ r ∈ l, r.optional = false → ∃ c ∈ capturedNames sidSession d, r.isMatch c = true)
      (by decide))

/-- C2: the requirement set with the single domain `example.com` whose only
requirement is optional makes the evaluator return false on a session with no
captured cookie and on a session that captured the cookie, where the claim
says true: the domain entry of the working copy starts empty and is never
deleted. -/
theorem C2_all_optional_returns_false :
    AllCookieAuthTokensCaptured freshSession
        (AList.singleton "example.com" [reqSIDOptional]) = false ∧
      AllCookieAuthTokensCaptured sidSession
        (AList.singleton "example.com" [reqSIDOptional]) = false := by
  constructor <;> decide

theorem capturedNames_of_not_mem (s : Session Lure) (d : String)
    (h : d ∉ s.CookieTokens.keys) : capturedNames s d = [] := by
  unfold capturedNames
  have : s.CookieTokens.lookup d = none := AList.lookup_eq_none.2 (fun hm => h (AList.mem_keys.1 hm))
  rw [this]

theorem isMatch_of_re_none (r : CookieAuthToken) (c : String) (h : r.re = none) :
    r.isMatch c = decide (r.name = c) := by
  unfold CookieAuthToken.isMatch
  rw [h]

/-- C3, as stated, fails: the sessions `sidTokenSession` and `tokenSidSession`
hold the same captured cookie names under every domain, visited in different
orders, and with the requirements `[reqAnyName, reqSID]` the evaluator returns
true on the first and false on the second. -/
theorem C3_counterexample :
    (∀ d, (capturedNames sidTokenSession d).Perm (capturedNames tokenSidSession d)) ∧
      AllCookieAuthTokensCaptured sidTokenSession
        (AList.singleton "example.com" [reqAnyName, reqSID]) = true ∧
      AllCookieAuthTokensCaptured tokenSidSession
        (AList.singleton "example.com" [reqAnyName, reqSID]) = false := by
  refine ⟨?_, by decide, by decide⟩
  intro d
  by_cases hd : d = "example.com"
  · subst hd; decide
  · have h1 : d ∉ sidTokenSession.CookieTokens.keys := by
      have : sidTokenSession.CookieTokens.keys = ["example.com"] := by decide
      rw [this]; simpa using hd
    have h2 : d ∉ tokenSidSession.CookieTokens.keys := by
      have : tokenSidSession.CookieTokens.keys = ["example.com"] := by decide
      rw [this]; simpa using hd
    rw [capturedNames_of_not_mem _ d h1, capturedNames_of_not_mem _ d h2]

/-- C3 (amended): when no captured cookie name matches more than one
non-optional requirement entry of its domain, the value returned by the
evaluator does not depend on the order in which the captured cookies are
visited: two sessions holding the same captured cookie names under every
domain get the same result. -/
theorem C3_order_independent (s1 s2 : Session Lure) (required : GoMap (List CookieAuthToken))
    (hsame : ∀ d c, c ∈ capturedNames s1 d ↔ c ∈ capturedNames s2 d)
    (hone : ∀ d l, required.lookup d = some l →
      ∀ c ∈ capturedNames s1 d, ((nonOptional l).filter (fun r => r.isMatch c)).length ≤ 1) :
    AllCookieAuthTokensCaptured s1 required = AllCookieAuthTokensCaptured s2 required := by
  rw [Bool.eq_iff_iff, AllCookieAuthTokensCaptured_iff, AllCookieAuthTokensCaptured_iff]
  have hone2 : ∀ d l, required.lookup d = some l →
      ∀ c ∈ capturedNames s2 d, ((nonOptional l).filter (fun r => r.isMatch c)).length ≤ 1 :=
    fun d l hl c hc => hone d l hl c ((hsame d c).2 hc)
  constructor
  · intro h d l hl
    refine ⟨(h d l hl).1, ?_⟩
    rw [consume_eq_nil_iff _ _ (hone2 d l hl)]
    intro r hr
    obtain ⟨c, hc, hm⟩ := (consume_eq_nil_iff _ _ (hone d l hl)).1 (h d l hl).2 r hr
    exact ⟨c, (hsame d c).1 hc, hm⟩
  · intro h d l hl
    refine ⟨(h d l hl).1, ?_⟩
    rw [consume_eq_nil_iff _ _ (hone d l hl)]
    intro r hr
    obtain ⟨c, hc, hm⟩ := (consume_eq_nil_iff _ _ (hone2 d l hl)).1 (h d l hl).2 r hr
    exact ⟨c, (hsame d c).2 hc, hm⟩

/-- Witness for C3: the two visiting orders of the cookies `SID` and `TOKEN`
against the requirements `[reqSID, reqTOKEN]`. -/
theorem C3_order_independent_witness :
    AllCookieAuthTokensCaptured sidTokenSession (AList.singleton "example.com" [reqSID, reqTOKEN]) =
      AllCookieAuthTokensCaptured tokenSidSession
        (AList.singleton "example.com" [reqSID, reqTOKEN]) :=
  C3_order_independent sidTokenSession tokenSidSession
    (AList.singleton "example.com" [reqSID, reqTOKEN])
    (by
      intro d c
      by_cases hd : d = "example.com"
      · subst hd
        have h1 : capturedNames sidTokenSession "example.com" = ["TOKEN", "SID"] := by decide
        have h2 : capturedNames tokenSidSession "example.com" = ["SID", "TOKEN"] := by decide
        rw [h1, h2]
        simp only [List.mem_cons, List.mem_singleton, List.not_mem_nil, or_false]
        exact Or.comm
      · have h1 : d ∉ sidTokenSession.CookieTokens.keys := by
          have : sidTokenSession.CookieTokens.keys = ["example.com"] := by decide
          rw [this]; simpa using hd
        have h2 : d ∉ tokenSidSession.CookieTokens.keys := by
          have : tokenSidSession.CookieTokens.keys = ["example.com"] := by decide
          rw [this]; simpa using hd
        rw [capturedNames_of_not_mem _ d h1, capturedNames_of_not_mem _ d h2])
    (forall_lookup_singleton "example.com" [reqSID, reqTOKEN]
      (fun d l => ∀ c ∈ capturedNames sidTokenSession d,
        ((nonOptional l).filter (fun r => r.isMatch c)).length ≤ 1)
      (by decide))

/-- C4: a captured cookie consumes the first requirement it matches and no
other.  For a required domain `d` with requirement list `l`: (a) when the only
cookie name captured under `d` is `c`, and the non-optional requirements of
`l` hold `r1` and, later, `r2`, both matching `c`, with no match before `r1`,
the working copy after the scan holds for `d` the non-optional requirements
without `r1` (so `r2` is still there) and the evaluator returns false; (b) when
`d` has more non-optional requirements than captured cookie names, the
evaluator returns false. -/
theorem C4_first_match_consumed (s : Session Lure) (required : GoMap (List CookieAuthToken))
    (d : String) (l : List CookieAuthToken) (hl : required.lookup d = some l) :
    (∀ (c : String) (pre mid post : List CookieAuthToken) (r1 r2 : CookieAuthToken),
        capturedNames s d = [c] →
        nonOptional l = pre ++ r1 :: (mid ++ r2 :: post) →
        (∀ x ∈ pre, x.isMatch c = false) → r1.isMatch c = true → r2.isMatch c = true →
        (scanCaptured (buildTcopy required) s.CookieTokens).lookup d =
            some (pre ++ (mid ++ r2 :: post)) ∧
          AllCookieAuthTokensCaptured s required = false) ∧
      ((capturedNames s d).length < (nonOptional l).length →
        AllCookieAuthTokensCaptured s required = false) := by
  have hb : (capturedNames s d).length < (nonOptional l).length →
      AllCookieAuthTokensCaptured s required = false := by
    intro hlt
    rw [← Bool.not_eq_true, AllCookieAuthTokensCaptured_iff]
    intro h
    have h1 := (h d l hl).2
    have h2 := length_le_consume (capturedNames s d) (nonOptional l)
    rw [h1] at h2
    simp only [List.length_nil, Nat.zero_add] at h2
    omega
  refine ⟨?_, hb⟩
  intro c pre mid post r1 r2 hc hsplit hpre hr1 _
  constructor
  · rw [lookup_scanCaptured, lookup_buildTcopy, hl, hc, Option.map_some', hsplit]
    have hany : (pre ++ r1 :: (mid ++ r2 :: post)).any (fun r => r.isMatch c) = true := by
      simp [hr1]
    have he : (pre ++ r1 :: (mid ++ r2 :: post)).eraseP (fun r => r.isMatch c) =
        pre ++ (mid ++ r2 :: post) := by
      rw [List.eraseP_append_right _ (by simpa using hpre),
        List.eraseP_cons_of_pos (by simpa using hr1)]
    simp only [List.foldl_cons, List.foldl_nil, domStep, hany, if_true, he]
    rw [if_neg (by simp)]
  · apply hb
    rw [hc, hsplit]
    simp only [List.length_append, List.length_cons, List.length_nil]
    omega

/-- Witness for C4: the cookie `SID` alone against `[reqAnyName, reqSID]`,
both of which match it. -/
theorem C4_first_match_consumed_witness :
    ((scanCaptured (buildTcopy (AList.singleton "example.com" [reqAnyName, reqSID]))
          sidSession.CookieTokens).lookup "example.com" = some ([] ++ ([] ++ reqSID :: [])) ∧
        AllCookieAuthTokensCaptured sidSession
          (AList.singleton "example.com" [reqAnyName, reqSID]) = false) ∧
      AllCookieAuthTokensCaptured sidSession
        (AList.singleton "example.com" [reqAnyName, reqSID]) = false :=
  have h := C4_first_match_consumed sidSession (AList.singleton "example.com" [reqAnyName, reqSID])
    "example.com" [reqAnyName, reqSID] rfl
  ⟨h.1 "SID" [] [] [] reqAnyName reqSID (by decide) rfl (by decide) (by decide)
      (by decide),
    h.2 (by decide)⟩

/-- C5: with the single domain `d` and the single, non-optional requirement
`{name := n, re := re}`, the evaluator returns true exactly when `re` matches
a cookie name captured under `d`; the name `n` plays no part. -/
theorem C5_regex_alone (s : Session Lure) (d n : String) (re : Regexp) :
    AllCookieAuthTokensCaptured s
        (AList.singleton d [{ name := n, re := some re, optional := false }]) = true ↔
      ∃ c ∈ capturedNames s d, re.MatchString c = true := by
  rw [AllCookieAuthTokensCaptured_iff]
  have hno : nonOptional [({ name := n, re := some re, optional := false } : CookieAuthToken)] =
      [{ name := n, re := some re, optional := false }] := rfl
  have hone : ∀ c ∈ capturedNames s d,
      (([({ name := n, re := some re, optional := false } : CookieAuthToken)]).filter
        (fun r => r.isMatch c)).length ≤ 1 := fun c _ => List.length_filter_le _ _
  constructor
  · intro h
    have h1 := (h d _ (by rw [lookup_singleton, if_pos rfl])).2
    rw [hno] at h1
    obtain ⟨c, hc, hm⟩ := consume_eq_nil_matched _ _ h1 _ (List.mem_singleton.2 rfl)
    exact ⟨c, hc, hm⟩
  · intro ⟨c, hc, hm⟩
    apply forall_lookup_singleton
    rw [hno]
    refine ⟨by simp, ?_⟩
    rw [consume_eq_nil_iff _ _ hone]
    intro r hr
    rw [List.mem_singleton] at hr
    subst hr
    exact ⟨c, hc, hm⟩

/-- C6: when every required domain has a non-optional requirement, and the
non-optional requirements of each domain carry no regex and have pairwise
distinct names, the evaluator returns true exactly when each of those names
is a cookie name captured under the same domain. -/
theorem C6_literal_names (s : Session Lure) (required : GoMap (List CookieAuthToken))
    (h : ∀ d l, required.lookup d = some l →
      (∃ r ∈ l, r.optional = false) ∧ (∀ r ∈ l, r.optional = false → r.re = none) ∧
        ((nonOptional l).map (fun r => r.name)).Nodup) :
    AllCookieAuthTokensCaptured s required = true ↔
      ∀ d l, required.lookup d = some l →
        ∀ r ∈ l, r.optional = false → r.name ∈ capturedNames s d := by
  rw [AllCookieAuthTokensCaptured_iff]
  have hone : ∀ d l, required.lookup d = some l → ∀ c ∈ capturedNames s d,
      ((nonOptional l).filter (fun r => r.isMatch c)).length ≤ 1 := by
    intro d l hl c _
    have hcongr : (nonOptional l).filter (fun r => r.isMatch c) =
        (nonOptional l).filter (fun r => decide (r.name = c)) := by
      apply List.filter_congr
      intro r hr
      have := (mem_nonOptional l r).1 hr
      exact isMatch_of_re_none r c ((h d l hl).2.1 r this.1 this.2)
    rw [hcongr]
    exact filter_name_length_le_one c _ (h d l hl).2.2
  constructor
  · intro hall d l hl r hr hopt
    obtain ⟨c, hc, hm⟩ := consume_eq_nil_matched _ _ (hall d l hl).2 r
      ((mem_nonOptional l r).2 ⟨hr, hopt⟩)
    rw [isMatch_of_re_none r c ((h d l hl).2.1 r hr hopt)] at hm
    have : r.name = c := by simpa using hm
    rw [this]; exact hc
  · intro hall d l hl
    obtain ⟨⟨r, hr, hopt⟩, hre, _⟩ := h d l hl
    refine ⟨?_, ?_⟩
    · intro hnil
      have : r ∈ nonOptional l := (mem_nonOptional l r).2 ⟨hr, hopt⟩
      rw [hnil] at this
      simp at this
    · rw [consume_eq_nil_iff _ _ (hone d l hl)]
      intro r2 hr2
      have hm := (mem_nonOptional l r2).1 hr2
      refine ⟨r2.name, hall d l hl r2 hm.1 hm.2, ?_⟩
      rw [isMatch_of_re_none r2 _ (hre r2 hm.1 hm.2)]
      simp

/-- Witness for C6: the scenarios of the spec.  Two required cookies and one
captured give false; one optional and one mandatory requirement with only the
optional one captured give false; both required cookies captured give true. -/
theorem C6_literal_names_witness :
    AllCookieAuthTokensCaptured sidSession
        (AList.singleton "example.com" [reqSID, reqTOKEN]) = false ∧
      AllCookieAuthTokensCaptured sidSession
        (AList.singleton "example.com" [reqSIDOptional, reqTOKEN]) = false ∧
      AllCookieAuthTokensCaptured sidTokenSession
        (AList.singleton "example.com" [reqSID, reqTOKEN]) = true := by
  refine ⟨?_, ?_, ?_⟩
  · rw [← Bool.not_eq_true, C6_literal_names sidSession _
      (forall_lookup_singleton "example.com" [reqSID, reqTOKEN] _
        ⟨by decide, by intro r hr _; simp at hr; rcases hr with rfl | rfl <;> rfl, by decide⟩)]
    intro hall
    have := hall "example.com" [reqSID, reqTOKEN] rfl reqTOKEN (by simp) rfl
    revert this
    decide
  · rw [← Bool.not_eq_true, C6_literal_names sidSession _
      (forall_lookup_singleton "example.com" [reqSIDOptional, reqTOKEN] _
        ⟨by decide, by intro r hr _; simp at hr; rcases hr with rfl | rfl <;> rfl, by decide⟩)]
    intro hall
    have := hall "example.com" [reqSIDOptional, reqTOKEN] rfl reqTOKEN (by simp) rfl
    revert this
    decide
  · rw [C6_literal_names sidTokenSession _
      (forall_lookup_singleton "example.com" [reqSID, reqTOKEN] _
        ⟨by decide, by intro r hr _; simp at hr; rcases hr with rfl | rfl <;> rfl, by decide⟩)]
    exact forall_lookup_singleton "example.com" [reqSID, reqTOKEN]
      (fun d l => ∀ r ∈ l, r.optional = false → r.name ∈ capturedNames sidTokenSession d)
      (by decide)

/-! Runs of operations -/

theorem run_cons (s : Session Lure) (op : Op) (ops : List Op) :
    run s (op :: ops) = run (op.apply s) ops := rfl

theorem apply_flags_of_not_finish (s : Session Lure) (op : Op)
    (h : ∀ is_auth_url, op ≠ Op.finish is_auth_url) :
    (op.apply s).IsDone = s.IsDone ∧ (op.apply s).DoneSignal = s.DoneSignal ∧
      op.effects s = [] := by
  cases op with
  | setUsername u => exact ⟨rfl, rfl, rfl⟩
  | setPassword p => exact ⟨rfl, rfl, rfl⟩
  | setCustom n v => exact ⟨rfl, rfl, rfl⟩
  | addCookieAuthToken d k v p ho e =>
    refine ⟨?_, ?_, rfl⟩
    · simp only [Op.apply, AddCookieAuthToken]
      split <;> rfl
    · simp only [Op.apply, AddCookieAuthToken]
      split <;> rfl
  | allCookieAuthTokensCaptured a => exact ⟨rfl, rfl, rfl⟩
  | finish c => exact absurd rfl (h c)

theorem run_of_done (ops : List Op) :
    ∀ s : Session Lure, s.IsDone = true → s.DoneSignal = none →
      (run s ops).IsDone = true ∧ (run s ops).DoneSignal = none ∧
        (runEffects s ops).count Effect.closeDoneSignal = 0 ∧
        (runEffects s ops).count Effect.panicCloseOfClosedChannel = 0 := by
  induction ops with
  | nil => intro s h1 h2; exact ⟨h1, h2, rfl, rfl⟩
  | cons op ops ih =>
    intro s h1 h2
    rw [run_cons, runEffects, List.count_append, List.count_append]
    by_cases hf : ∃ c, op = Op.finish c
    · obtain ⟨c, rfl⟩ := hf
      have hs : (Finish s c) = (s, [Effect.goSendSessionDetails]) := by simp [Finish, h1]
      have := ih (Op.apply s (Op.finish c)) (by simp [Op.apply, hs, h1]) (by simp [Op.apply, hs, h2])
      simp only [Op.effects, hs]
      simpa using this
    · have hn : ∀ c, op ≠ Op.finish c := fun c hc => hf ⟨c, hc⟩
      obtain ⟨e1, e2, e3⟩ := apply_flags_of_not_finish s op hn
      have := ih (op.apply s) (by rw [e1]; exact h1) (by rw [e2]; exact h2)
      rw [e3]
      simpa using this

theorem run_of_armed (ops : List Op) :
    ∀ s : Session Lure, s.IsDone = false → s.DoneSignal = some { closed := false } →
      ((run s ops).IsDone = false ∧ (run s ops).DoneSignal = some { closed := false } ∧
          (runEffects s ops).count Effect.closeDoneSignal = 0 ∧
          (runEffects s ops).count Effect.panicCloseOfClosedChannel = 0) ∨
        ((run s ops).IsDone = true ∧ (run s ops).DoneSignal = none ∧
          (runEffects s ops).count Effect.closeDoneSignal = 1 ∧
          (runEffects s ops).count Effect.panicCloseOfClosedChannel = 0) := by
  induction ops with
  | nil => intro s h1 h2; exact Or.inl ⟨h1, h2, rfl, rfl⟩
  | cons op ops ih =>
    intro s h1 h2
    rw [run_cons, runEffects, List.count_append, List.count_append]
    by_cases hf : ∃ c, op = Op.finish c
    · obtain ⟨c, rfl⟩ := hf
      have hs : (Finish s c) =
          ({ s with IsDone := true, IsAuthUrl := c, DoneSignal := none },
            [Effect.closeDoneSignal, Effect.goSendSessionDetails]) := by
        simp [Finish, h1, h2]
      have := run_of_done ops (Op.apply s (Op.finish c)) (by simp [Op.apply, hs])
        (by simp [Op.apply, hs])
      right
      simp only [Op.effects, hs]
      simpa using this
    · have hn : ∀ c, op ≠ Op.finish c := fun c hc => hf ⟨c, hc⟩
      obtain ⟨e1, e2, e3⟩ := apply_flags_of_not_finish s op hn
      have := ih (op.apply s) (by rw [e1]; exact h1) (by rw [e2]; exact h2)
      rw [e3]
      simpa using this

/-! The completion latch -/

theorem Finish_of_armed (s : Session Lure) (a : Bool) (h : s.IsDone = false) (ch : Chan)
    (hch : s.DoneSignal = some ch) (hclosed : ch.closed = false) :
    Finish s a =
      ({ s with IsDone := true, IsAuthUrl := a, DoneSignal := none },
        [Effect.closeDoneSignal, Effect.goSendSessionDetails]) := by
  simp [Finish, h, hch, hclosed]

/-- C7: on every session the module produces (reached from `NewSession` by a
sequence of operations) that is not done, `Finish a` yields the session with
`IsDone = true`, `IsAuthUrl = a` and `DoneSignal = nil` and every other field
unchanged, and its effects are exactly one `close` of `DoneSignal` followed by
one start of the notifier. -/
theorem C7_Finish_open (s : Session Lure) (a : Bool) (hr : Reachable s)
    (h : s.IsDone = false) :
    Finish s a =
      ({ s with IsDone := true, IsAuthUrl := a, DoneSignal := none },
        [Effect.closeDoneSignal, Effect.goSendSessionDetails]) := by
  obtain ⟨genRandomToken, name, ops, rfl⟩ := hr
  rcases run_of_armed ops (NewSession genRandomToken name : Session Lure) rfl rfl with
    ⟨_, h2, _, _⟩ | ⟨h1, _, _, _⟩
  · exact Finish_of_armed _ a h { closed := false } h2 rfl
  · rw [h1] at h
    exact absurd h (by decide)

/-- Witness for C7: `Finish true` on the session reached by setting the
username and adding a cookie. -/
theorem C7_Finish_open_witness :
    Finish (SetUsername sidSession "alice") true =
      ({ SetUsername sidSession "alice" with
          IsDone := true, IsAuthUrl := true, DoneSignal := none },
        [Effect.closeDoneSignal, Effect.goSendSessionDetails]) :=
  C7_Finish_open (SetUsername sidSession "alice") true
    ⟨"id", "example",
      [Op.addCookieAuthToken "example.com" "SID" "abc" "/" true 0, Op.setUsername "alice"], rfl⟩
    rfl

/-- C8: a second `Finish` on a session that the first `Finish` completed
starts the notifier goroutine again, so the two calls dispatch two
notifications where the claim says one: the `go` statement stands after the
`if !s.IsDone` block, not inside it. -/
theorem C8_second_Finish_dispatches :
    (Finish freshSession false).1.IsDone = true ∧
      (Finish (Finish freshSession false).1 false).2 = [Effect.goSendSessionDetails] ∧
      ((Finish freshSession false).2 ++ (Finish (Finish freshSession false).1 false).2).count
        Effect.goSendSessionDetails = 2 := by
  refine ⟨?_, ?_, ?_⟩ <;> decide

/-- C9: `Finish` on a session that is done changes no field and closes
nothing; hence after `Finish a` and then `Finish b` on a session that was not
done, the second call changes nothing, `IsAuthUrl` is `a`, and the two calls
close `DoneSignal` at most once. -/
theorem C9_Finish_done_unchanged (s : Session Lure) (a b : Bool) :
    (s.IsDone = true →
        (Finish s b).1 = s ∧ (Finish s b).2.count Effect.closeDoneSignal = 0) ∧
      (s.IsDone = false →
        (Finish (Finish s a).1 b).1 = (Finish s a).1 ∧
          (Finish (Finish s a).1 b).1.IsAuthUrl = a ∧
          (Finish (Finish s a).1 b).2.count Effect.closeDoneSignal = 0 ∧
          ((Finish s a).2 ++ (Finish (Finish s a).1 b).2).count Effect.closeDoneSignal ≤ 1) := by
  have hdone : ∀ (t : Session Lure) (c : Bool), t.IsDone = true →
      (Finish t c).1 = t ∧ (Finish t c).2.count Effect.closeDoneSignal = 0 := by
    intro t c ht
    simp [Finish, ht]
  refine ⟨hdone s b, ?_⟩
  intro h
  have h1 : (Finish s a).1.IsDone = true := by
    cases hs : s.DoneSignal with
    | none => simp [Finish, h, hs]
    | some ch => cases hc : ch.closed <;> simp [Finish, h, hs, hc]
  have h2 : (Finish s a).1.IsAuthUrl = a := by
    cases hs : s.DoneSignal with
    | none => simp [Finish, h, hs]
    | some ch => cases hc : ch.closed <;> simp [Finish, h, hs, hc]
  have h3 : (Finish s a).2.count Effect.closeDoneSignal ≤ 1 := by
    cases hs : s.DoneSignal with
    | none => simp [Finish, h, hs]
    | some ch => cases hc : ch.closed <;> simp [Finish, h, hs, hc]
  obtain ⟨e1, e2⟩ := hdone (Finish s a).1 b h1
  refine ⟨e1, ?_, e2, ?_⟩
  · rw [e1]; exact h2
  · rw [List.count_append, e2]; exact h3

/-- Witness for C9: `Finish true` and then `Finish false` on a fresh
session. -/
theorem C9_Finish_done_unchanged_witness :
    ((Finish (Finish freshSession true).1 false).1 = (Finish freshSession true).1 ∧
        (Finish (Finish freshSession true).1 false).2.count Effect.closeDoneSignal = 0) ∧
      (Finish (Finish freshSession true).1 false).1.IsAuthUrl = true :=
  ⟨(C9_Finish_done_unchanged (Finish freshSession true).1 true false).1 rfl,
    ((C9_Finish_done_unchanged freshSession true false).2 rfl).2.1⟩

theorem IsDone_apply (s : Session Lure) (op : Op) (h : s.IsDone = true) :
    (op.apply s).IsDone = true := by
  cases op with
  | setUsername u => exact h
  | setPassword p => exact h
  | setCustom n v => exact h
  | addCookieAuthToken d k v p ho e =>
    simp only [Op.apply, AddCookieAuthToken]
    split <;> exact h
  | allCookieAuthTokensCaptured a => exact h
  | finish c => simp [Op.apply, Finish, h]

theorem IsDone_run (ops : List Op) :
    ∀ s : Session Lure, s.IsDone = true → (run s ops).IsDone = true := by
  induction ops with
  | nil => intro s h; exact h
  | cons op ops ih => intro s h; exact ih _ (IsDone_apply s op h)

theorem IsDone_Finish (s : Session Lure) (a : Bool) : (Finish s a).1.IsDone = true := by
  cases h : s.IsDone with
  | true => simp [Finish, h]
  | false =>
    cases hs : s.DoneSignal with
    | none => simp [Finish, h, hs]
    | some ch => cases hc : ch.closed <;> simp [Finish, h, hs, hc]

/-- C10: on a session that is done, each of `SetUsername`, `SetPassword`,
`SetCustom`, `AddCookieAuthToken`, `AllCookieAuthTokensCaptured` and `Finish`
leaves `IsDone = true`; and after any sequence of these operations that
contains a `Finish`, whatever follows it, `IsDone` is true. -/
theorem C10_IsDone_monotone (s : Session Lure) :
    (s.IsDone = true →
        (∀ username, (SetUsername s username).IsDone = true) ∧
          (∀ password, (SetPassword s password).IsDone = true) ∧
          (∀ name value, (SetCustom s name value).IsDone = true) ∧
          (∀ domain key value path http_only expires,
            (AddCookieAuthToken s domain key value path http_only expires).IsDone = true) ∧
          (∀ authTokens, (Op.apply s (Op.allCookieAuthTokensCaptured authTokens)).IsDone = true) ∧
          (∀ is_auth_url, (Finish s is_auth_url).1.IsDone = true) ∧
          ∀ ops, (run s ops).IsDone = true) ∧
      ∀ (before : List Op) (is_auth_url : Bool) (after : List Op),
        (run s (before ++ Op.finish is_auth_url :: after)).IsDone = true := by
  constructor
  · intro h
    refine ⟨fun u => IsDone_apply s (Op.setUsername u) h,
      fun p => IsDone_apply s (Op.setPassword p) h,
      fun n v => IsDone_apply s (Op.setCustom n v) h,
      fun d k v p ho e => IsDone_apply s (Op.addCookieAuthToken d k v p ho e) h,
      fun a => IsDone_apply s (Op.allCookieAuthTokensCaptured a) h,
      fun c => IsDone_Finish s c,
      fun ops => IsDone_run ops s h⟩
  · intro before c after
    unfold run
    rw [List.foldl_append, List.foldl_cons]
    exact IsDone_run after _ (IsDone_Finish _ c)

/-- Witness for C10: a finished session stays done through a password
update, and a run with a `Finish` in the middle ends done. -/
theorem C10_IsDone_monotone_witness :
    (SetPassword (Finish freshSession false).1 "s3cret").IsDone = true ∧
      (run freshSession
        ([Op.setUsername "alice"] ++ Op.finish false ::
          [Op.addCookieAuthToken "example.com" "SID" "abc" "/" true 0, Op.finish true])).IsDone =
        true :=
  ⟨((C10_IsDone_monotone (Finish freshSession false).1).1 rfl).2.1 "s3cret",
    (C10_IsDone_monotone freshSession).2 [Op.setUsername "alice"] false
      [Op.addCookieAuthToken "example.com" "SID" "abc" "/" true 0, Op.finish true]⟩

/-! The session record and the cookie-token store -/

/-- C11: in every state reached from `NewSession` by a sequence of operations,
`DoneSignal` has been closed at most once, it has been closed (once) exactly
when `IsDone` is true, it is armed (non-nil and not closed) exactly when
`IsDone` is false, and no `close` has hit a closed channel. -/
theorem C11_DoneSignal_once (genRandomToken name : String) (ops : List Op) :
    (runEffects (NewSession genRandomToken name : Session Lure) ops).count
        Effect.closeDoneSignal ≤ 1 ∧
      ((runEffects (NewSession genRandomToken name : Session Lure) ops).count
          Effect.closeDoneSignal = 1 ↔
        (run (NewSession genRandomToken name : Session Lure) ops).IsDone = true) ∧
      ((∃ ch, (run (NewSession genRandomToken name : Session Lure) ops).DoneSignal = some ch ∧
          ch.closed = false) ↔
        (run (NewSession genRandomToken name : Session Lure) ops).IsDone = false) ∧
      (runEffects (NewSession genRandomToken name : Session Lure) ops).count
        Effect.panicCloseOfClosedChannel = 0 := by
  rcases run_of_armed ops (NewSession genRandomToken name : Session Lure) rfl rfl with
    ⟨h1, h2, h3, h4⟩ | ⟨h1, h2, h3, h4⟩
  · rw [h1, h2, h3, h4]
    simp
  · rw [h1, h2, h3, h4]
    simp

theorem AddCookieAuthToken_CookieTokens (s : Session Lure) (domain key value path : String)
    (http_only : Bool) (expires : Time) :
    (AddCookieAuthToken s domain key value path http_only expires).CookieTokens =
      (match s.CookieTokens.lookup domain with
        | some _ => s.CookieTokens
        | none => s.CookieTokens.insert domain ∅).insert domain
        (((s.CookieTokens.lookup domain).getD ∅).insert key
          (storedToken (tokenAt s domain key) key value path http_only)) := by
  unfold AddCookieAuthToken tokenAt storedToken
  cases hd : s.CookieTokens.lookup domain with
  | none =>
    simp only [AList.lookup_insert, Option.getD_some, AList.lookup_empty, Option.getD_none]
  | some inner =>
    simp only [hd, Option.getD_some]
    cases hk : inner.lookup key <;> rfl

theorem AddCookieAuthToken_frame (s : Session Lure) (domain key value path : String)
    (http_only : Bool) (expires : Time) :
    AddCookieAuthToken s domain key value path http_only expires =
      { s with
        CookieTokens :=
          (AddCookieAuthToken s domain key value path http_only expires).CookieTokens } := by
  unfold AddCookieAuthToken
  simp only
  split <;> rfl

theorem AddCookieAuthToken_lookup (s : Session Lure) (domain key value path : String)
    (http_only : Bool) (expires : Time) (d : String) :
    (AddCookieAuthToken s domain key value path http_only expires).CookieTokens.lookup d =
      if d = domain then
        some (((s.CookieTokens.lookup domain).getD ∅).insert key
          (storedToken (tokenAt s domain key) key value path http_only))
      else s.CookieTokens.lookup d := by
  rw [AddCookieAuthToken_CookieTokens]
  by_cases hd : d = domain
  · subst hd
    rw [AList.lookup_insert, if_pos rfl]
  · rw [AList.lookup_insert_ne hd, if_neg hd]
    cases s.CookieTokens.lookup domain with
    | none => exact AList.lookup_insert_ne hd
    | some _ => rfl

theorem AddCookieAuthToken_tokenAt (s : Session Lure) (domain key value path : String)
    (http_only : Bool) (expires : Time) (d k : String) :
    tokenAt (AddCookieAuthToken s domain key value path http_only expires) d k =
      if d = domain ∧ k = key then
        some (storedToken (tokenAt s domain key) key value path http_only)
      else tokenAt s d k := by
  unfold tokenAt
  rw [AddCookieAuthToken_lookup]
  by_cases hd : d = domain
  · subst hd
    simp only [if_true, true_and]
    by_cases hk : k = key
    · subst hk
      rw [AList.lookup_insert, if_pos rfl]
      rfl
    · rw [AList.lookup_insert_ne hk, if_neg hk]
      cases s.CookieTokens.lookup d with
      | none => rfl
      | some inner => rfl
  · rw [if_neg hd, if_neg (fun h => hd h.1)]

/-- C12: after `AddCookieAuthToken domain key value path http_only expires` the
token at `CookieTokens[domain][key]` has `Name = key`, `Value = value` and
`HttpOnly = http_only`; when a token was stored there before, its `Path` is
`path` and its `Expires` is the one stored before; when none was, its `Path`
is empty and its `Expires` is zero, whatever `path` and `expires` are. -/
theorem C12_AddCookieAuthToken_stored (s : Session Lure) (domain key value path : String)
    (http_only : Bool) (expires : Time) :
    (∀ old, tokenAt s domain key = some old →
        tokenAt (AddCookieAuthToken s domain key value path http_only expires) domain key =
          some { Name := key, Value := value, Path := path, HttpOnly := http_only,
                 Expires := old.Expires }) ∧
      (tokenAt s domain key = none →
        tokenAt (AddCookieAuthToken s domain key value path http_only expires) domain key =
          some { Name := key, Value := value, Path := "", HttpOnly := http_only,
                 Expires := 0 }) := by
  constructor
  · intro old hold
    rw [AddCookieAuthToken_tokenAt, if_pos ⟨rfl, rfl⟩, hold]
    rfl
  · intro hnone
    rw [AddCookieAuthToken_tokenAt, if_pos ⟨rfl, rfl⟩, hnone]
    rfl

/-- Witness for C12: the cookie `SID` stored with expiry 7 is re-added with
expiry 99 and keeps expiry 7; the cookie `TOKEN`, absent before, is added with
path `/` and expiry 99 and gets the empty path and expiry 0. -/
theorem C12_AddCookieAuthToken_stored_witness :
    tokenAt (AddCookieAuthToken expiringSession "example.com" "SID" "new" "/" true 99)
        "example.com" "SID" =
        some { Name := "SID", Value := "new", Path := "/", HttpOnly := true, Expires := 7 } ∧
      tokenAt (AddCookieAuthToken expiringSession "example.com" "TOKEN" "xyz" "/" true 99)
        "example.com" "TOKEN" =
        some { Name := "TOKEN", Value := "xyz", Path := "", HttpOnly := true, Expires := 0 } :=
  ⟨(C12_AddCookieAuthToken_stored expiringSession "example.com" "SID" "new" "/" true 99).1
      { Name := "SID", Value := "old", Path := "/old", HttpOnly := false, Expires := 7 }
      (by decide),
    (C12_AddCookieAuthToken_stored expiringSession "example.com" "TOKEN" "xyz" "/" true 99).2
      (by decide)⟩

/-- C13: `AddCookieAuthToken domain key ...` removes nothing and touches one
place: every `(d, k)` that held a token before holds one after, the token at
every `(d, k)` other than `(domain, key)` is the same as before, every domain
that was a key of `CookieTokens` still is (and `domain` is one after the
call), and every field of the session other than `CookieTokens` is
unchanged. -/
theorem C13_AddCookieAuthToken_local (s : Session Lure) (domain key value path : String)
    (http_only : Bool) (expires : Time) :
    (∀ d k, (tokenAt s d k).isSome = true →
        (tokenAt (AddCookieAuthToken s domain key value path http_only expires) d k).isSome =
          true) ∧
      (∀ d k, ¬ (d = domain ∧ k = key) →
        tokenAt (AddCookieAuthToken s domain key value path http_only expires) d k =
          tokenAt s d k) ∧
      (∀ d, d ∈ s.CookieTokens.keys →
        d ∈ (AddCookieAuthToken s domain key value path http_only expires).CookieTokens.keys) ∧
      domain ∈ (AddCookieAuthToken s domain key value path http_only expires).CookieTokens.keys ∧
      AddCookieAuthToken s domain key value path http_only expires =
        { s with
          CookieTokens :=
            (AddCookieAuthToken s domain key value path http_only expires).CookieTokens } := by
  have hdom : domain ∈
      (AddCookieAuthToken s domain key value path http_only expires).CookieTokens.keys := by
    rw [← AList.mem_keys, ← AList.lookup_isSome, AddCookieAuthToken_lookup, if_pos rfl]
    rfl
  refine ⟨?_, ?_, ?_, hdom, AddCookieAuthToken_frame s domain key value path http_only expires⟩
  · intro d k h
    rw [AddCookieAuthToken_tokenAt]
    by_cases hdk : d = domain ∧ k = key
    · rw [if_pos hdk]; rfl
    · rw [if_neg hdk]; exact h
  · intro d k hdk
    rw [AddCookieAuthToken_tokenAt, if_neg hdk]
  · intro d hd
    by_cases hdd : d = domain
    · rw [hdd]; exact hdom
    · rw [← AList.mem_keys, ← AList.lookup_isSome, AddCookieAuthToken_lookup, if_neg hdd,
        AList.lookup_isSome, AList.mem_keys]
      exact hd

/-- Witness for C13: re-adding `SID` to the session that holds `SID` and
`TOKEN` keeps `TOKEN` as it was and keeps the domain entry. -/
theorem C13_AddCookieAuthToken_local_witness :
    tokenAt (AddCookieAuthToken sidTokenSession "example.com" "SID" "new" "/p" false 0)
        "example.com" "TOKEN" = tokenAt sidTokenSession "example.com" "TOKEN" ∧
      "example.com" ∈
        (AddCookieAuthToken sidTokenSession "example.com" "SID" "new" "/p" false 0).CookieTokens.keys :=
  ⟨(C13_AddCookieAuthToken_local sidTokenSession "example.com" "SID" "new" "/p" false 0).2.1
      "example.com" "TOKEN" (by decide),
    (C13_AddCookieAuthToken_local sidTokenSession "example.com" "SID" "new" "/p" false 0).2.2.1
      "example.com" (by decide)⟩

theorem run_invariant (P : Session Lure → Prop) (hstep : ∀ s op, P s → P (Op.apply s op))
    (ops : List Op) : ∀ s : Session Lure, P s → P (run s ops) := by
  induction ops with
  | nil => intro s h; exact h
  | cons op ops ih => intro s h; exact ih _ (hstep s op h)

theorem apply_CookieTokens (s : Session Lure) (op : Op)
    (h : ∀ d k v p ho e, op ≠ Op.addCookieAuthToken d k v p ho e) :
    (op.apply s).CookieTokens = s.CookieTokens := by
  cases op with
  | setUsername u => rfl
  | setPassword p => rfl
  | setCustom n v => rfl
  | addCookieAuthToken d k v p ho e => exact absurd rfl (h d k v p ho e)
  | allCookieAuthTokensCaptured a => rfl
  | finish c =>
    simp only [Op.apply, Finish]
    cases hdone : s.IsDone with
    | true => rfl
    | false =>
      cases hs : s.DoneSignal with
      | none => simp [hs]
      | some ch => cases hc : ch.closed <;> simp [hs, hc]

theorem inner_nonempty_apply (s : Session Lure) (op : Op)
    (h : ∀ d m, s.CookieTokens.lookup d = some m → 0 < m.entries.length) :
    ∀ d m, (op.apply s).CookieTokens.lookup d = some m → 0 < m.entries.length := by
  by_cases hadd : ∃ d k v p ho e, op = Op.addCookieAuthToken d k v p ho e
  · obtain ⟨domain, key, v, p, ho, e, rfl⟩ := hadd
    intro d m hm
    simp only [Op.apply] at hm
    rw [AddCookieAuthToken_lookup] at hm
    by_cases hd : d = domain
    · rw [if_pos hd] at hm
      cases hm
      rw [AList.insert_entries]
      simp
    · rw [if_neg hd] at hm
      exact h d m hm
  · have hn : ∀ d k v p ho e, op ≠ Op.addCookieAuthToken d k v p ho e :=
      fun d k v p ho e hc => hadd ⟨d, k, v, p, ho, e, hc⟩
    rw [apply_CookieTokens s op hn]
    exact h

/-- C14: in every state reached from `NewSession` by a sequence of operations,
every domain that is a key of `CookieTokens` has an inner map with at least
one entry. -/
theorem C14_inner_maps_nonempty (genRandomToken name : String) (ops : List Op) (d : String)
    (m : GoMap CookieToken)
    (h : (run (NewSession genRandomToken name : Session Lure) ops).CookieTokens.lookup d =
      some m) :
    0 < m.entries.length :=
  run_invariant (fun s => ∀ d m, s.CookieTokens.lookup d = some m → 0 < m.entries.length)
    inner_nonempty_apply ops (NewSession genRandomToken name)
    (by
      intro d m hm
      simp [NewSession] at hm)
    d m h

/-- Witness for C14: the inner map of `example.com` after a run that adds two
cookies and finishes. -/
theorem C14_inner_maps_nonempty_witness :
    0 < (AList.singleton "SID"
      { Name := "SID", Value := "abc", Path := "", HttpOnly := true, Expires := 0 } :
        GoMap CookieToken).entries.length :=
  @C14_inner_maps_nonempty Unit "id" "example"
    [Op.setUsername "alice", Op.addCookieAuthToken "example.com" "SID" "abc" "/" true 0,
      Op.finish false]
    "example.com" _ rfl

theorem storedToken_Name (old : Option CookieToken) (key value path : String)
    (http_only : Bool) : (storedToken old key value path http_only).Name = key := by
  cases old <;> rfl

theorem token_name_apply (s : Session Lure) (op : Op)
    (h : ∀ d k tk, tokenAt s d k = some tk → tk.Name = k) :
    ∀ d k tk, tokenAt (op.apply s) d k = some tk → tk.Name = k := by
  by_cases hadd : ∃ d k v p ho e, op = Op.addCookieAuthToken d k v p ho e
  · obtain ⟨domain, key, v, p, ho, e, rfl⟩ := hadd
    intro d k tk htk
    simp only [Op.apply] at htk
    rw [AddCookieAuthToken_tokenAt] at htk
    by_cases hdk : d = domain ∧ k = key
    · rw [if_pos hdk] at htk
      cases htk
      rw [storedToken_Name, hdk.2]
    · rw [if_neg hdk] at htk
      exact h d k tk htk
  · have hn : ∀ d k v p ho e, op ≠ Op.addCookieAuthToken d k v p ho e :=
      fun d k v p ho e hc => hadd ⟨d, k, v, p, ho, e, hc⟩
    intro d k tk htk
    unfold tokenAt at htk
    rw [apply_CookieTokens s op hn] at htk
    exact h d k tk htk

/-- C15: in every state reached from `NewSession` by a sequence of operations,
the token stored at `CookieTokens[d][k]` has `Name = k`. -/
theorem C15_token_name_is_key (genRandomToken name : String) (ops : List Op) (d k : String)
    (tk : CookieToken)
    (h : tokenAt (run (NewSession genRandomToken name : Session Lure) ops) d k = some tk) :
    tk.Name = k :=
  run_invariant (fun s => ∀ d k tk, tokenAt s d k = some tk → tk.Name = k)
    token_name_apply ops (NewSession genRandomToken name)
    (by
      intro d k tk htk
      simp [tokenAt, NewSession] at htk)
    d k tk h

/-- Witness for C15: the token stored for `SID` after adding it twice. -/
theorem C15_token_name_is_key_witness :
    ({ Name := "SID", Value := "new", Path := "/p", HttpOnly := false, Expires := 0 } :
      CookieToken).Name = "SID" :=
  @C15_token_name_is_key Unit "id" "example"
    [Op.addCookieAuthToken "example.com" "SID" "abc" "/" true 0,
      Op.addCookieAuthToken "example.com" "SID" "new" "/p" false 5]
    "example.com" "SID" _ (by decide)

/-- C16: `SetUsername`, `SetPassword` and `SetCustom` store their argument,
whatever string it is; a later call overwrites an earlier one, so the same
call twice gives the session of the call once; `SetCustom n v` leaves every
other key of `Custom` as it was; and each setter leaves every other field of
the session unchanged. -/
theorem C16_setters (s : Session Lure) (username password name value : String) :
    ((SetUsername s username).Username = username ∧
        (∀ earlier, SetUsername (SetUsername s earlier) username = SetUsername s username) ∧
        SetUsername s username = { s with Username := username }) ∧
      ((SetPassword s password).Password = password ∧
        (∀ earlier, SetPassword (SetPassword s earlier) password = SetPassword s password) ∧
        SetPassword s password = { s with Password := password }) ∧
      ((SetCustom s name value).Custom.lookup name = some value ∧
        (∀ other, other ≠ name →
          (SetCustom s name value).Custom.lookup other = s.Custom.lookup other) ∧
        (∀ earlier, SetCustom (SetCustom s name earlier) name value = SetCustom s name value) ∧
        SetCustom s name value = { s with Custom := (SetCustom s name value).Custom }) := by
  refine ⟨⟨rfl, fun _ => rfl, rfl⟩, ⟨rfl, fun _ => rfl, rfl⟩, ?_, ?_, ?_, rfl⟩
  · exact AList.lookup_insert _
  · intro other h
    exact AList.lookup_insert_ne h
  · intro earlier
    simp only [SetCustom, AList.insert_insert]

/-- Witness for C16: the empty string is stored like any other, a second
equal call changes nothing, and another key of `Custom` is left alone. -/
theorem C16_setters_witness :
    (SetUsername freshSession "").Username = "" ∧
      SetCustom (SetCustom freshSession "otp" "123456") "otp" "123456" =
        SetCustom freshSession "otp" "123456" ∧
      (SetCustom (SetCustom freshSession "pin" "0000") "otp" "").Custom.lookup "pin" =
        (SetCustom freshSession "pin" "0000").Custom.lookup "pin" :=
  ⟨(C16_setters freshSession "" "" "" "").1.1,
    (C16_setters freshSession "" "" "otp" "123456").2.2.2.2.1 "123456",
    (C16_setters (SetCustom freshSession "pin" "0000") "" "" "otp" "").2.2.2.1 "pin" (by decide)⟩

/-! The notifier dispatcher -/

set_option maxRecDepth 100000 in
theorem Sprintf_template (name username password redirectURL remoteAddr userAgent : String) :
    Sprintf
        ("<b>New Session Captured</b>\n\n" ++
          "<code>Name:</code> <b>%s</b>\n" ++
          "<code>Username:</code> <i>%s</i>\n" ++
          "<code>Password:</code> <span class=\"tg-spoiler\">%s</span>\n" ++
          "<code>Landing URL:</code> <u>%s</u>\n" ++
          "<code>IP Address:</code> <code>%s</code>\n" ++
          "<code>User Agent:</code> <pre>%s</pre>")
        [name, username, password, redirectURL, remoteAddr, userAgent] =
      summaryTemplate name username password redirectURL remoteAddr userAgent := by
  apply String.ext
  simp only [summaryTemplate, Sprintf, String.data_append, List.append_assoc]
  rfl

theorem Sprintf_line (value : String) :
    Sprintf "<i>%s</i>\n" [value] = "<i>" ++ value ++ "</i>\n" := by
  apply String.ext
  simp only [Sprintf, String.data_append, List.append_assoc]
  rfl

theorem foldl_custom_lines (entries : List (Σ _ : String, String)) :
    ∀ init : String,
      entries.foldl (fun sessionMessage kv => sessionMessage ++ Sprintf "<i>%s</i>\n" [kv.2])
          init =
        init ++ customLines (entries.map (fun kv => kv.2)) := by
  induction entries with
  | nil => intro init; simp [customLines]
  | cons kv entries ih =>
    intro init
    rw [List.foldl_cons, ih, Sprintf_line, List.map_cons, customLines]
    simp only [String.append_assoc]

/-- C17: the summary is the fixed template with `Name`, `Username`,
`Password`, `RedirectURL`, `RemoteAddr` and `UserAgent` put in as they are,
followed by nothing when `Custom` is empty and otherwise by the header
`<b>Custom Fields:</b>` and one line `<i>value</i>` per entry of `Custom`, in
visiting order, made from the value of the entry alone. -/
theorem C17_sessionMessage_format (s : Session Lure) :
    sessionMessage s =
      summaryTemplate s.Name s.Username s.Password s.RedirectURL s.RemoteAddr s.UserAgent ++
        customFields (s.Custom.entries.map (fun kv => kv.2)) := by
  unfold sessionMessage
  simp only [Sprintf_template]
  cases h : s.Custom.entries with
  | nil => simp [customFields]
  | cons kv entries =>
    rw [if_pos (by simp), foldl_custom_lines]
    simp only [customFields, List.map_cons, String.append_assoc]

theorem Sprintf_apiURL (botToken : String) :
    Sprintf "https://api.telegram.org/bot%s/sendMessage" [botToken] =
      "https://api.telegram.org/bot" ++ botToken ++ "/sendMessage" := by
  apply String.ext
  simp only [Sprintf, String.data_append, List.append_assoc]
  rfl

theorem stripChars_of_noRun (t : List Char) :
    (∀ x y, t = x ++ '<' :: y → '>' ∉ y) → stripChars false t = t := by
  induction t with
  | nil => intro _; rfl
  | cons c t ih =>
    intro h
    have hrest : ∀ x y, t = x ++ '<' :: y → '>' ∉ y := by
      intro x y hxy
      exact h (c :: x) y (by rw [hxy]; rfl)
    by_cases hc : c = '<' ∧ '>' ∈ t
    · exact absurd hc.2 (h [] t (by rw [hc.1]; rfl))
    · simp only [stripChars, if_neg hc, ih hrest]

theorem stripChars_append (t l : List Char) (ht : '<' ∉ t) :
    stripChars false (t ++ l) = t ++ stripChars false l := by
  induction t with
  | nil => rfl
  | cons c t ih =>
    rw [List.mem_cons, not_or] at ht
    have hc : ¬ (c = '<' ∧ '>' ∈ t ++ l) := fun h => ht.1 h.1.symm
    show stripChars false (c :: (t ++ l)) = c :: (t ++ stripChars false l)
    rw [stripChars, if_neg hc, ih ht.2]

theorem stripChars_inside (w after : List Char) (hw : '>' ∉ w) :
    stripChars true (w ++ '>' :: after) = stripChars false after := by
  induction w with
  | nil => simp [stripChars]
  | cons c w ih =>
    rw [List.mem_cons, not_or] at hw
    have hc : ¬ c = '>' := fun h => hw.1 h.symm
    show stripChars true (c :: (w ++ '>' :: after)) = stripChars false after
    rw [stripChars, if_neg hc, ih hw.2]

theorem stripChars_run (t w after : List Char) (ht : '<' ∉ t) (hw : '>' ∉ w) :
    stripChars false (t ++ '<' :: (w ++ '>' :: after)) = t ++ stripChars false after := by
  rw [stripChars_append _ _ ht]
  have hc : ('<' : Char) = '<' ∧ '>' ∈ w ++ '>' :: after := ⟨rfl, by simp⟩
  rw [stripChars, if_pos hc, stripChars_inside w after hw]

theorem TagStripped_unique (l out : List Char) (h : TagStripped l out) :
    out = stripChars false l := by
  induction h with
  | noRun t h => exact (stripChars_of_noRun t h).symm
  | run t w after out ht hw _ ih => rw [stripChars_run t w after ht hw, ih]

theorem split_at_first (a : Char) (l : List Char) (h : a ∈ l) :
    ∃ s t, l = s ++ a :: t ∧ a ∉ s := by
  induction l with
  | nil => simp at h
  | cons c l ih =>
    by_cases hc : c = a
    · exact ⟨[], l, by rw [hc]; rfl, by simp⟩
    · have hl : a ∈ l := by
        rcases List.mem_cons.1 h with h | h
        · exact absurd h.symm hc
        · exact h
      obtain ⟨s, t, hst, hs⟩ := ih hl
      refine ⟨c :: s, t, by rw [hst]; rfl, ?_⟩
      rw [List.mem_cons, not_or]
      exact ⟨fun h => hc h.symm, hs⟩

theorem TagStripped_stripChars (n : Nat) :
    ∀ l : List Char, l.length ≤ n → TagStripped l (stripChars false l) := by
  induction n with
  | zero =>
    intro l hl
    have : l = [] := List.length_eq_zero.1 (Nat.le_zero.1 hl)
    subst this
    exact TagStripped.noRun [] (by intro x y h; cases x <;> simp at h)
  | succ n ih =>
    intro l hl
    by_cases hrun : ∀ x y, l = x ++ '<' :: y → '>' ∉ y
    · rw [stripChars_of_noRun l hrun]
      exact TagStripped.noRun l hrun
    · simp only [not_forall, not_not] at hrun
      obtain ⟨x, y, hxy, hgt⟩ := hrun
      have hlt : '<' ∈ l := by rw [hxy]; simp
      obtain ⟨t, rest, hl2, ht⟩ := split_at_first '<' l hlt
      have hgt2 : '>' ∈ rest := by
        have hx : ∃ z, x = t ++ z := by
          have hpre : t ++ '<' :: rest = x ++ '<' :: y := by rw [← hl2, hxy]
          rcases List.append_eq_append_iff.1 hpre with ⟨a, ha, hb⟩ | ⟨a, ha, hb⟩
          · exact ⟨a, ha⟩
          · cases a with
            | nil => exact ⟨[], by simpa using ha.symm⟩
            | cons c a =>
              exfalso
              rw [List.cons_append] at hb
              injection hb with hc _
              apply ht
              rw [ha, ← hc]
              simp
        obtain ⟨z, hz⟩ := hx
        have hrest : '<' :: rest = z ++ '<' :: y := by
          have : t ++ '<' :: rest = t ++ (z ++ '<' :: y) := by
            rw [← hl2, hxy, hz, List.append_assoc]
          exact List.append_cancel_left this
        cases z with
        | nil =>
          rw [List.nil_append] at hrest
          injection hrest with _ hry
          rw [hry]; exact hgt
        | cons c z =>
          rw [List.cons_append] at hrest
          injection hrest with _ hry
          rw [hry]; simp [hgt]
      obtain ⟨w, after, hrest, hw⟩ := split_at_first '>' rest hgt2
      rw [hl2, hrest, stripChars_run t w after ht hw]
      apply TagStripped.run t w after _ ht hw
      apply ih
      have hlen : l.length = t.length + (1 + (w.length + (1 + after.length))) := by
        rw [hl2, hrest]
        simp only [List.length_append, List.length_cons]
        omega
      omega

/-- C18: `SendSessionDetailsToTelegramBot` always prints first the line made
of `Session message: ` and the tag-stripped summary, where the tag-stripped
summary is the one text that the spec's console log format relates to the
HTML summary (every leftmost `<...>` run removed).  When the bot token or the
user id is empty it then only logs a warning: nothing is started and nothing
is posted.  Otherwise it starts `SendFormattedMessageToTelegramBot` once, with
the HTML summary, the token and the user id, and that function makes exactly
one `http.PostForm` call, to the `sendMessage` URL of the token, whose
`chat_id` is the user id, whose `text` is the HTML summary and whose
`parse_mode` is `HTML`, whatever the network answers. -/
theorem C18_notifier_dispatch (s : Session Lure) :
    (∃ stripped rest,
        SendSessionDetailsToTelegramBot s =
          Output.stdout ("Session message: " ++ stripped ++ "\n") :: rest ∧
        TagStripped (sessionMessage s).data stripped.data ∧
        ∀ other, TagStripped (sessionMessage s).data other → other = stripped.data) ∧
      (s.TelegramBotToken = "" ∨ s.TelegramUserID = "" →
        (SendSessionDetailsToTelegramBot s).filter Output.isGoSend = [] ∧
          (SendSessionDetailsToTelegramBot s).filter Output.isPostForm = []) ∧
      (¬ (s.TelegramBotToken = "" ∨ s.TelegramUserID = "") →
        (SendSessionDetailsToTelegramBot s).filter Output.isGoSend =
            [Output.goSendFormattedMessageToTelegramBot (sessionMessage s) s.TelegramBotToken
              s.TelegramUserID] ∧
          ∀ post, ∃ data,
            (SendFormattedMessageToTelegramBot (sessionMessage s) s.TelegramBotToken
                s.TelegramUserID post).filter Output.isPostForm =
              [Output.postForm
                ("https://api.telegram.org/bot" ++ s.TelegramBotToken ++ "/sendMessage") data] ∧
            data.lookup "chat_id" = some [s.TelegramUserID] ∧
            data.lookup "text" = some [sessionMessage s] ∧
            data.lookup "parse_mode" = some ["HTML"]) := by
  refine ⟨?_, ?_, ?_⟩
  · refine ⟨stripHTMLTags (sessionMessage s), ?_⟩
    unfold SendSessionDetailsToTelegramBot
    by_cases h : s.TelegramBotToken = "" ∨ s.TelegramUserID = ""
    · exact ⟨_, by rw [if_pos h], TagStripped_stripChars _ _ (Nat.le_refl _),
        fun other ho => TagStripped_unique _ _ ho⟩
    · exact ⟨_, by rw [if_neg h], TagStripped_stripChars _ _ (Nat.le_refl _),
        fun other ho => TagStripped_unique _ _ ho⟩
  · intro h
    unfold SendSessionDetailsToTelegramBot
    rw [if_pos h]
    exact ⟨rfl, rfl⟩
  · intro h
    constructor
    · unfold SendSessionDetailsToTelegramBot
      rw [if_neg h]
      rfl
    · intro post
      refine ⟨(((∅ : GoMap (List String)).insert "chat_id" [s.TelegramUserID]).insert "text"
        [sessionMessage s]).insert "parse_mode" ["HTML"], ?_, ?_, ?_, ?_⟩
      · unfold SendFormattedMessageToTelegramBot
        rw [Sprintf_apiURL]
        simp only
        cases post _ _ with
        | err text => rfl
        | resp StatusCode Body =>
          by_cases hc : StatusCode ≠ 200
          · simp only [if_pos hc]; rfl
          · simp only [if_neg hc]; rfl
      · rw [AList.lookup_insert_ne (by decide), AList.lookup_insert_ne (by decide),
          AList.lookup_insert]
      · rw [AList.lookup_insert_ne (by decide), AList.lookup_insert]
      · rw [AList.lookup_insert]

/-- Witness for C18: a session with notifier credentials starts the post, a
fresh session, whose credentials are empty, starts and posts nothing, and the
text printed for the session with credentials, whose password holds `<b>`, is
the summary without its tags. -/
theorem C18_notifier_dispatch_witness :
    (SendSessionDetailsToTelegramBot aliceSession).filter Output.isGoSend =
        [Output.goSendFormattedMessageToTelegramBot (sessionMessage aliceSession) "T0K" "42"] ∧
      (SendSessionDetailsToTelegramBot freshSession).filter Output.isGoSend = [] ∧
      stripHTMLTags (sessionMessage aliceSession) =
        "New Session Captured\n\nName: example\nUsername: alice\n" ++
          "Password: s3cret\nLanding URL: \nIP Address: \nUser Agent: \n\n" ++
          "Custom Fields:\n0000\n123456\n" :=
  ⟨((C18_notifier_dispatch aliceSession).2.2 (by decide)).1,
    ((C18_notifier_dispatch freshSession).2.1 (Or.inl rfl)).1,
    by decide⟩

/-! Soundness of the completion evaluator -/

theorem forall₂_split_left {α β : Type} (R : α → β → Prop) (l1 l2 : List α) :
    ∀ u : List β, List.Forall₂ R (l1 ++ l2) u →
      ∃ u1 u2, u = u1 ++ u2 ∧ List.Forall₂ R l1 u1 ∧ List.Forall₂ R l2 u2 := by
  induction l1 with
  | nil => intro u h; exact ⟨[], u, rfl, List.Forall₂.nil, h⟩
  | cons a l1 ih =>
    intro u h
    rw [List.cons_append, List.forall₂_cons_left_iff] at h
    obtain ⟨b, u', hab, hrest, rfl⟩ := h
    obtain ⟨u1, u2, rfl, h1, h2⟩ := ih u' hrest
    exact ⟨b :: u1, u2, rfl, List.Forall₂.cons hab h1, h2⟩

theorem consume_assignment (cs : List String) :
    cs.Nodup → ∀ al : List CookieAuthToken, consume al cs = [] →
      ∃ assigned : List String,
        assigned.Nodup ∧ (∀ c ∈ assigned, c ∈ cs) ∧
          List.Forall₂ (fun r c => r.isMatch c = true) al assigned := by
  induction cs with
  | nil =>
    intro _ al h
    simp only [consume, List.foldl_nil] at h
    rw [h]
    exact ⟨[], List.nodup_nil, by simp, List.Forall₂.nil⟩
  | cons c cs ih =>
    intro hnd al h
    rw [List.nodup_cons] at hnd
    rw [consume_cons] at h
    obtain ⟨asg, hasg, hmem, hrel⟩ := ih hnd.2 _ h
    by_cases hany : ∃ a ∈ al, a.isMatch c = true
    · obtain ⟨a, ha, hpa⟩ := hany
      obtain ⟨a2, l1, l2, _, hpa2, hal, herase⟩ :=
        List.exists_of_eraseP (p := fun r => r.isMatch c) ha hpa
      rw [herase] at hrel
      obtain ⟨u1, u2, rfl, h1, h2⟩ := forall₂_split_left _ l1 l2 asg hrel
      have hc : c ∉ u1 ++ u2 := fun hin => hnd.1 (hmem c hin)
      refine ⟨u1 ++ c :: u2, ?_, ?_, ?_⟩
      · rw [List.nodup_middle, List.nodup_cons]
        exact ⟨hc, hasg⟩
      · intro x hx
        rw [List.mem_append, List.mem_cons] at hx
        rcases hx with hx | rfl | hx
        · exact List.mem_cons_of_mem _ (hmem x (List.mem_append_left _ hx))
        · exact List.mem_cons_self _ _
        · exact List.mem_cons_of_mem _ (hmem x (List.mem_append_right _ hx))
      · rw [hal]
        exact List.rel_append h1 (List.Forall₂.cons hpa2 h2)
    · have he : al.eraseP (fun r => r.isMatch c) = al := by
        apply List.eraseP_of_forall_not
        intro x hx hp
        exact hany ⟨x, hx, hp⟩
      rw [he] at hrel
      exact ⟨asg, hasg, fun x hx => List.mem_cons_of_mem _ (hmem x hx), hrel⟩

theorem capturedNames_nodup (s : Session Lure) (d : String) : (capturedNames s d).Nodup := by
  unfold capturedNames
  cases s.CookieTokens.lookup d with
  | none => exact List.nodup_nil
  | some tokens => exact tokens.keys_nodup

/-- C20: whenever the evaluator returns true, every domain of `required` has a
non-optional requirement, and for each domain there is a list of pairwise
distinct cookie names captured under that domain, one per non-optional
requirement in order, such that each requirement matches its name. -/
theorem C20_AllCookieAuthTokensCaptured_sound (s : Session Lure)
    (required : GoMap (List CookieAuthToken))
    (h : AllCookieAuthTokensCaptured s required = true) :
    ∀ d l, required.lookup d = some l →
      (∃ r ∈ l, r.optional = false) ∧
        ∃ assigned : List String,
          assigned.Nodup ∧ (∀ c ∈ assigned, c ∈ capturedNames s d) ∧
            List.Forall₂ (fun r c => r.isMatch c = true) (nonOptional l) assigned := by
  intro d l hl
  obtain ⟨hne, hnil⟩ := (AllCookieAuthTokensCaptured_iff s required).1 h d l hl
  constructor
  · cases hno : nonOptional l with
    | nil => exact absurd hno hne
    | cons r rest =>
      have hr : r ∈ nonOptional l := by rw [hno]; exact List.mem_cons_self _ _
      have := (mem_nonOptional l r).1 hr
      exact ⟨r, this.1, this.2⟩
  · exact consume_assignment _ (capturedNames_nodup s d) _ hnil

/-- Witness for C20: the cookies `SID` and `TOKEN` against the requirements
`[reqAnyName, reqSID]`, visited in the order in which the evaluator returns
true. -/
theorem C20_AllCookieAuthTokensCaptured_sound_witness :
    (∃ r ∈ [reqAnyName, reqSID], r.optional = false) ∧
      ∃ assigned : List String,
        assigned.Nodup ∧ (∀ c ∈ assigned, c ∈ capturedNames sidTokenSession "example.com") ∧
          List.Forall₂ (fun r c => r.isMatch c = true) (nonOptional [reqAnyName, reqSID])
            assigned :=
  C20_AllCookieAuthTokensCaptured_sound sidTokenSession
    (AList.singleton "example.com" [reqAnyName, reqSID]) (by decide) "example.com"
    [reqAnyName, reqSID] rfl

/-! Calls of `Finish` that run at the same time -/

theorem runSchedule_append (w : World Lure) (a b : List Nat) :
    runSchedule w (a ++ b) = runSchedule (runSchedule w a) b := by
  unfold runSchedule
  rw [List.foldl_append]

theorem runSchedule_replicate (n : Nat) (i : Nat) :
    ∀ w : World Lure,
      (runSchedule w (List.replicate n i)).session = (runAlone n w.session (w.goroutines i)).1 ∧
        (runSchedule w (List.replicate n i)).goroutines i =
          (runAlone n w.session (w.goroutines i)).2.1 ∧
        (runSchedule w (List.replicate n i)).effects =
          w.effects ++ (runAlone n w.session (w.goroutines i)).2.2 ∧
        ∀ j, j ≠ i → (runSchedule w (List.replicate n i)).goroutines j = w.goroutines j := by
  induction n with
  | zero =>
    intro w
    simp [runSchedule, runAlone]
  | succ n ih =>
    intro w
    obtain ⟨h1, h2, h3, h4⟩ := ih (w.step i)
    have hi : (w.step i).goroutines i = (stepFinish w.session (w.goroutines i)).2.1 := by
      simp [World.step]
    have hs : (w.step i).session = (stepFinish w.session (w.goroutines i)).1 := rfl
    have he : (w.step i).effects = w.effects ++ (stepFinish w.session (w.goroutines i)).2.2 :=
      rfl
    rw [hi, hs] at h1 h2 h3
    rw [he] at h3
    have hrun : runSchedule w (List.replicate (n + 1) i) =
        runSchedule (w.step i) (List.replicate n i) := rfl
    rw [hrun]
    refine ⟨?_, ?_, ?_, ?_⟩
    · rw [h1]; rfl
    · rw [h2]; rfl
    · rw [h3, List.append_assoc]; rfl
    · intro j hj
      rw [h4 j hj]
      simp [World.step, hj]

theorem runAlone_armed (s : Session Lure) (a : Bool) (h : s.IsDone = false)
    (hch : s.DoneSignal = some { closed := false }) :
    runAlone 7 s { is_auth_url := a, pc := Pc.line143 } =
      ({ s with IsDone := true, IsAuthUrl := a, DoneSignal := none },
        { is_auth_url := a, pc := Pc.returned },
        [Effect.closeDoneSignal, Effect.goSendSessionDetails]) := by
  simp [runAlone, stepFinish, h, hch]

theorem runAlone_done (s : Session Lure) (a : Bool) (h : s.IsDone = true) :
    runAlone 7 s { is_auth_url := a, pc := Pc.line143 } =
      (s, { is_auth_url := a, pc := Pc.returned }, [Effect.goSendSessionDetails]) := by
  simp [runAlone, stepFinish, h]

theorem runAlone_returned (n : Nat) (s : Session Lure) (a : Bool) :
    runAlone n s { is_auth_url := a, pc := Pc.returned } =
      (s, { is_auth_url := a, pc := Pc.returned }, []) := by
  induction n with
  | zero => rfl
  | succ n ih => simp [runAlone, stepFinish, ih]

theorem runAlone_eq_Finish (s : Session Lure) (a : Bool)
    (h : ∀ ch, s.DoneSignal = some ch → ch.closed = false) :
    (runAlone 7 s { is_auth_url := a, pc := Pc.line143 }).1 = (Finish s a).1 ∧
      (runAlone 7 s { is_auth_url := a, pc := Pc.line143 }).2.2 = (Finish s a).2 := by
  cases hd : s.IsDone with
  | true => simp [runAlone, stepFinish, Finish, hd]
  | false =>
    cases hs : s.DoneSignal with
    | none => simp [runAlone, stepFinish, Finish, hd, hs]
    | some ch =>
      have hc := h ch hs
      simp [runAlone, stepFinish, Finish, hd, hs, hc]

theorem block_of_done (w : World Lure) (i : Nat) (h1 : w.session.IsDone = true)
    (hpc : ∀ j, (w.goroutines j).pc = Pc.line143 ∨ (w.goroutines j).pc = Pc.returned) :
    (runSchedule w (List.replicate 7 i)).session = w.session ∧
      (∃ es, (runSchedule w (List.replicate 7 i)).effects = w.effects ++ es ∧
        es.count Effect.closeDoneSignal = 0 ∧ es.count Effect.panicCloseOfClosedChannel = 0 ∧
        es.count Effect.panicCloseOfNilChannel = 0) ∧
      ((runSchedule w (List.replicate 7 i)).goroutines i).pc = Pc.returned ∧
      ∀ j, j ≠ i → (runSchedule w (List.replicate 7 i)).goroutines j = w.goroutines j := by
  obtain ⟨e1, e2, e3, e4⟩ := runSchedule_replicate 7 i w
  have hp := hpc i
  rcases hg : w.goroutines i with ⟨a, pc⟩
  rw [hg] at e1 e2 e3 hp
  simp only at hp
  rcases hp with hp | hp
  · rw [hp, runAlone_done _ _ h1] at e1 e2 e3
    exact ⟨e1, ⟨[Effect.goSendSessionDetails], e3, by decide, by decide, by decide⟩,
      by rw [e2], e4⟩
  · rw [hp, runAlone_returned] at e1 e2 e3
    exact ⟨e1, ⟨[], e3, by decide, by decide, by decide⟩, by rw [e2], e4⟩

theorem oneAfterAnother_of_done (order : List Nat) :
    ∀ w : World Lure, w.session.IsDone = true →
      (∀ j, (w.goroutines j).pc = Pc.line143 ∨ (w.goroutines j).pc = Pc.returned) →
      (∃ es, (runSchedule w (oneAfterAnother order)).effects = w.effects ++ es ∧
        es.count Effect.closeDoneSignal = 0 ∧ es.count Effect.panicCloseOfClosedChannel = 0 ∧
        es.count Effect.panicCloseOfNilChannel = 0) ∧
      (runSchedule w (oneAfterAnother order)).session = w.session ∧
      (∀ j, (w.goroutines j).pc = Pc.returned →
        ((runSchedule w (oneAfterAnother order)).goroutines j).pc = Pc.returned) ∧
      ∀ i ∈ order, ((runSchedule w (oneAfterAnother order)).goroutines i).pc = Pc.returned := by
  induction order with
  | nil =>
    intro w _ _
    exact ⟨⟨[], by simp [oneAfterAnother, runSchedule], rfl, rfl, rfl⟩, rfl,
      fun j hj => hj, by simp⟩
  | cons i order ih =>
    intro w h1 hpc
    obtain ⟨b1, ⟨es1, b2, c1, c2, c3⟩, b3, b4⟩ := block_of_done w i h1 hpc
    have hpc2 : ∀ j, ((runSchedule w (List.replicate 7 i)).goroutines j).pc = Pc.line143 ∨
        ((runSchedule w (List.replicate 7 i)).goroutines j).pc = Pc.returned := by
      intro j
      by_cases hj : j = i
      · rw [hj]; exact Or.inr b3
      · rw [b4 j hj]; exact hpc j
    obtain ⟨⟨es2, d1, d2, d3, d4⟩, d5, d6, d7⟩ :=
      ih (runSchedule w (List.replicate 7 i)) (by rw [b1]; exact h1) hpc2
    have hrun : runSchedule w (oneAfterAnother (i :: order)) =
        runSchedule (runSchedule w (List.replicate 7 i)) (oneAfterAnother order) := by
      rw [oneAfterAnother, runSchedule_append]
    rw [hrun]
    refine ⟨⟨es1 ++ es2, ?_, ?_, ?_, ?_⟩, ?_, ?_, ?_⟩
    · rw [d1, b2, List.append_assoc]
    · rw [List.count_append, c1, d2]
    · rw [List.count_append, c2, d3]
    · rw [List.count_append, c3, d4]
    · rw [d5, b1]
    · intro j hj
      apply d6
      by_cases hji : j = i
      · rw [hji]; exact b3
      · rw [b4 j hji]; exact hj
    · intro j hj
      rcases List.mem_cons.1 hj with hj | hj
      · rw [hj]; exact d6 i b3
      · exact d7 j hj

/-- C19, as stated, fails: two goroutines call `Finish(false)` on a fresh
session and both make the test of line 143 before either makes the assignment
of line 144; both then pass the test of line 146, the first closes
`DoneSignal` and the `close` of the second panics. -/
theorem C19_counterexample :
    (runSchedule (startWorld freshSession (fun _ => false))
        [0, 1, 0, 0, 0, 1, 1, 1, 0, 1]).effects =
      [Effect.closeDoneSignal, Effect.panicCloseOfClosedChannel] := by
  decide

/-- C19 (amended): when the calls of `Finish` on a new session do not overlap
(each goroutine of `order` makes all the statements of its call before the
next one starts), however many calls there are and whatever their arguments,
`DoneSignal` is closed exactly once, no `close` panics, the session ends done
with `DoneSignal` nil, and every call returns. -/
theorem C19_calls_one_after_another (genRandomToken name : String) (is_auth_url : Nat → Bool)
    (order : List Nat) (h : order ≠ []) :
    (runSchedule (startWorld (NewSession genRandomToken name : Session Lure) is_auth_url)
        (oneAfterAnother order)).effects.count Effect.closeDoneSignal = 1 ∧
      (runSchedule (startWorld (NewSession genRandomToken name : Session Lure) is_auth_url)
        (oneAfterAnother order)).effects.count Effect.panicCloseOfClosedChannel = 0 ∧
      (runSchedule (startWorld (NewSession genRandomToken name : Session Lure) is_auth_url)
        (oneAfterAnother order)).effects.count Effect.panicCloseOfNilChannel = 0 ∧
      (runSchedule (startWorld (NewSession genRandomToken name : Session Lure) is_auth_url)
        (oneAfterAnother order)).session.IsDone = true ∧
      (runSchedule (startWorld (NewSession genRandomToken name : Session Lure) is_auth_url)
        (oneAfterAnother order)).session.DoneSignal = none ∧
      ∀ i ∈ order,
        ((runSchedule (startWorld (NewSession genRandomToken name : Session Lure) is_auth_url)
          (oneAfterAnother order)).goroutines i).pc = Pc.returned := by
  cases order with
  | nil => exact absurd rfl h
  | cons i order =>
    have hrun : runSchedule (startWorld (NewSession genRandomToken name : Session Lure)
        is_auth_url) (oneAfterAnother (i :: order)) =
        runSchedule (runSchedule (startWorld (NewSession genRandomToken name : Session Lure)
          is_auth_url) (List.replicate 7 i)) (oneAfterAnother order) := by
      rw [oneAfterAnother, runSchedule_append]
    obtain ⟨e1, e2, e3, e4⟩ := runSchedule_replicate 7 i
      (startWorld (NewSession genRandomToken name : Session Lure) is_auth_url)
    have hstart : runAlone 7 (NewSession genRandomToken name : Session Lure)
        { is_auth_url := is_auth_url i, pc := Pc.line143 } = _ :=
      runAlone_armed (NewSession genRandomToken name) (is_auth_url i) rfl rfl
    simp only [startWorld, List.nil_append] at e1 e2 e3 e4
    rw [hstart] at e1 e2 e3
    simp only at e1 e2 e3
    have hpc : ∀ j, ((runSchedule (startWorld (NewSession genRandomToken name : Session Lure)
        is_auth_url) (List.replicate 7 i)).goroutines j).pc = Pc.line143 ∨
        ((runSchedule (startWorld (NewSession genRandomToken name : Session Lure)
        is_auth_url) (List.replicate 7 i)).goroutines j).pc = Pc.returned := by
      intro j
      by_cases hj : j = i
      · rw [hj]; right; simp only [startWorld]; rw [e2]
      · left; simp only [startWorld]; rw [e4 j hj]
    obtain ⟨⟨es, d1, d2, d3, d4⟩, d5, d6, d7⟩ :=
      oneAfterAnother_of_done order _ (by simp only [startWorld]; rw [e1]) hpc
    have hi : ((runSchedule (startWorld (NewSession genRandomToken name : Session Lure)
        is_auth_url) (List.replicate 7 i)).goroutines i).pc = Pc.returned := by
      simp only [startWorld]; rw [e2]
    simp only [startWorld] at d1 d5
    rw [e3] at d1
    rw [e1] at d5
    rw [hrun]
    simp only [startWorld]
    rw [d1, d5]
    refine ⟨?_, ?_, ?_, rfl, rfl, ?_⟩
    · rw [List.count_append, d2]; rfl
    · rw [List.count_append, d3]; rfl
    · rw [List.count_append, d4]; rfl
    · intro j hj
      rcases List.mem_cons.1 hj with hj | hj
      · rw [hj]; exact d6 i hi
      · exact d7 j hj

/-- Witness for C19: three goroutines, one of them named twice, whose calls
run one after the other. -/
theorem C19_calls_one_after_another_witness :
    (runSchedule (startWorld freshSession (fun i => decide (i = 1)))
        (oneAfterAnother [1, 0, 1, 2])).effects.count Effect.closeDoneSignal = 1 ∧
      (runSchedule (startWorld freshSession (fun i => decide (i = 1)))
        (oneAfterAnother [1, 0, 1, 2])).effects.count Effect.panicCloseOfClosedChannel = 0 :=
  ⟨(C19_calls_one_after_another "id" "example" (fun i => decide (i = 1)) [1, 0, 1, 2]
      (by decide)).1,
    (C19_calls_one_after_another "id" "example" (fun i => decide (i = 1)) [1, 0, 1, 2]
      (by decide)).2.1⟩

end Core
